import Mathlib

/-!
Verification development for the file-selection and prioritization pipeline of
`py_github_analyzer` (modules `file_processor.py`, `config.py`, `utils.py`).

Modelling conventions:
* A repository file record (`path`, `size`, `content`) is the structure `FileRecord`;
  the records enriched by the prioritizer (priority, language, complexity,
  priority_breakdown) are the structure `ScoredFile`, with `Option` fields for
  dictionary keys that may be absent.
* Python floats are modelled as exact rationals (`ℚ`); `round(x, 1)` is modelled as
  rounding to the nearest tenth (half up).
* Calls into the `re` regex engine are modelled by two abstract parameters
  `rsearch pat text : Bool` (for `re.search`) and `rcount pat text : Nat`
  (for `len(re.findall ...)`); theorems hold for every regex engine.
* Python's `pathlib.PurePath` accessors `name`, `suffix`, `suffixes`, `parts`
  are modelled on forward-slash strings following their documented semantics.
* Logging and wall-clock timing are omitted: they do not affect return values.
-/

/- Batteries marks the rational-number operations `@[irreducible]`, which keeps
`decide` from evaluating the ℚ-valued definitions below on concrete inputs.
Restoring the default reducibility (for this file only) makes them computable
again; no proof depends on it. -/
attribute [local semireducible] Rat.add Rat.mul Rat.inv Rat.sub

namespace PyGithubAnalyzer

/-! ### String primitives

Lean core's `String.trim`, `String.toLower`, `String.splitOn`, … are defined by
well-founded recursion on byte positions and do not reduce definitionally, so
the Python string operations are modelled here by structurally recursive
functions on the character list (Python slices/lengths count code points, which
`List Char` matches exactly). -/

/-- Python's substring test `needle in haystack`, on character lists. -/
def containsSub (nd : List Char) : List Char → Bool
  | [] => nd.isEmpty
  | c :: t => nd.isPrefixOf (c :: t) || containsSub nd t

/-- Python's substring test `needle in haystack` on strings. -/
def strContains (nd hay : String) : Bool :=
  containsSub nd.data hay.data

/-- ASCII lower-casing of one character (`str.lower()` restricted to ASCII,
which covers every table entry of the source). -/
def lowerChar (c : Char) : Char :=
  if 'A' ≤ c ∧ c ≤ 'Z' then Char.ofNat (c.toNat + 32) else c

/-- Python's `s.lower()`. -/
def strLower (s : String) : String :=
  ⟨s.data.map lowerChar⟩

/-- The ASCII whitespace stripped by Python's `str.strip()`. -/
def isPySpace (c : Char) : Bool :=
  c = ' ' || c = '\t' || c = '\n' || c = '\r' || c = '\x0b' || c = '\x0c'

/-- Python's `s.strip()`. -/
def strStrip (s : String) : String :=
  ⟨((s.data.dropWhile isPySpace).reverse.dropWhile isPySpace).reverse⟩

/-- Python's `s.startswith(pre)`. -/
def strStartsWith (s pre : String) : Bool :=
  pre.data.isPrefixOf s.data

/-- Python's `s.endswith(suf)`. -/
def strEndsWith (s suf : String) : Bool :=
  suf.data.isSuffixOf s.data

/-- Python's slice `s[:n]` (by code point). -/
def strTake (s : String) (n : Nat) : String :=
  ⟨s.data.take n⟩

/-- Python's `len(s)` (code points). -/
def strLength (s : String) : Nat :=
  s.data.length

/-- Split a character list on a separator character (`str.split(sep)` for a
one-character separator; `"".split(sep) = [""]`). -/
def splitOnChar (sep : Char) : List Char → List (List Char)
  | [] => [[]]
  | c :: rest =>
    let r := splitOnChar sep rest
    if c = sep then [] :: r
    else
      match r with
      | [] => [[c]]
      | g :: gs => (c :: g) :: gs

/-- Components of a POSIX path as `pathlib` normalizes them: split on `/`,
dropping empty components and single-dot components. -/
def pathComponents (p : String) : List String :=
  ((splitOnChar '/' p.data).filter fun c => c ≠ [] ∧ c ≠ ['.']).map String.mk

/-- `PurePosixPath(p).name`: the final path component (empty for `""`, `"."`, `"/"`). -/
def pathName (p : String) : String :=
  (pathComponents p).getLastD ""

/-- `len(PurePosixPath(p).parts)`: number of components, plus one for the root
when the path is absolute. -/
def partsCount (p : String) : Nat :=
  (pathComponents p).length + (if strStartsWith p "/" then 1 else 0)

/-- `PurePosixPath(p).suffixes`: strip leading dots off the final component and
return each remaining dot-separated suffix with its dot; empty when the name
ends in a dot. -/
def pathSuffixes (p : String) : List String :=
  let nm := pathName p
  if strEndsWith nm "." then []
  else
    let stripped := nm.data.dropWhile (· = '.')
    (splitOnChar '.' stripped).tail.map fun s => String.mk ('.' :: s)

/-- `PurePosixPath(p).suffix`: the last suffix, or `""` when there is none. -/
def pathSuffix (p : String) : String :=
  (pathSuffixes p).getLastD ""

/-- Number of lines of `content.splitlines()`: newline count, plus one when the
text does not end with a newline (only `\n` line endings are modelled). -/
def splitlinesCount (s : String) : Nat :=
  s.data.count '\n' + (if s.data ≠ [] ∧ s.data.getLast? ≠ some '\n' then 1 else 0)

/-! ### `Config` tables (`config.py`) -/

/-- `Config.MAX_FILE_SIZE`: 10 MiB per file. -/
def MAX_FILE_SIZE : Nat := 10 * 1024 * 1024

/-- `Config.MAX_TOTAL_SIZE_BYTES` (= `MAX_REPOSITORY_SIZE`): 500 MiB. -/
def MAX_TOTAL_SIZE_BYTES : Nat := 500 * 1024 * 1024

/-- `Config.MAX_FILES_COUNT`. -/
def MAX_FILES_COUNT : Nat := 10000

/-- `Config.SKIP_FILES`: names to always skip (matched exactly against the
lower-cased, stripped filename). -/
def SKIP_FILES : List String :=
  [".gitignore", ".gitattributes", ".gitmodules", ".gitkeep", ".DS_Store",
   "Thumbs.db", "desktop.ini", ".npmrc", ".yarnrc", ".bowerrc", ".travis.yml",
   ".appveyor.yml", ".circleci", ".gitlab-ci.yml", ".buildkite", "__pycache__",
   "*.pyc", "*.pyo", "*.pyd", ".coverage", "coverage.xml", ".nyc_output",
   "node_modules", "bower_components", "vendor", ".sass-cache", ".tmp", ".temp",
   "logs", "*.log", "npm-debug.log*", "yarn-debug.log*", "yarn-error.log*"]

/-- `Config.SPECIAL_FILES`: exact-name (case-insensitive) category table. -/
def SPECIAL_FILES : List (String × String) :=
  [("dockerfile", "dockerfile"), ("dockerfile.dev", "dockerfile"),
   ("dockerfile.prod", "dockerfile"), ("dockerfile.test", "dockerfile"),
   (".dockerignore", "config"), ("docker-compose.yml", "config"),
   ("docker-compose.yaml", "config"),
   ("makefile", "config"), ("cmake", "config"), ("cmakelists.txt", "config"),
   ("build.gradle", "java"), ("build.gradle.kts", "kotlin"), ("pom.xml", "java"),
   ("cargo.toml", "rust"), ("cargo.lock", "rust"),
   ("package.json", "javascript"), ("package-lock.json", "javascript"),
   ("yarn.lock", "javascript"), ("requirements.txt", "python"),
   ("pipfile", "python"), ("pipfile.lock", "python"), ("setup.py", "python"),
   ("setup.cfg", "python"), ("pyproject.toml", "python"), ("poetry.lock", "python"),
   ("gemfile", "ruby"), ("gemfile.lock", "ruby"), ("composer.json", "php"),
   ("composer.lock", "php"), ("go.mod", "go"), ("go.sum", "go"),
   ("jenkinsfile", "config"), ("vagrantfile", "config"), (".travis.yml", "config"),
   (".github", "config"), ("appveyor.yml", "config"), ("circle.yml", "config"),
   ("azure-pipelines.yml", "config"),
   ("webpack.config.js", "javascript"), ("rollup.config.js", "javascript"),
   ("babel.config.js", "javascript"), ("jest.config.js", "javascript"),
   ("tsconfig.json", "typescript"), ("tslint.json", "typescript"),
   ("eslint.json", "javascript"), (".eslintrc", "config"),
   (".eslintrc.js", "javascript"), (".eslintrc.json", "config"),
   (".prettierrc", "config"), (".editorconfig", "config"),
   ("license", "text"), ("licence", "text"), ("readme", "markdown"),
   ("readme.md", "markdown"), ("readme.txt", "text"), ("changelog", "text"),
   ("changelog.md", "markdown"), ("changes", "text"), ("authors", "text"),
   ("contributors", "text")]

/-- `Config.MULTI_PART_EXTENSIONS`, in dictionary (insertion) order. -/
def MULTI_PART_EXTENSIONS : List (String × String) :=
  [(".tar.gz", "binary"), (".tar.bz2", "binary"), (".tar.xz", "binary"),
   (".tar.Z", "binary"),
   (".backup", "binary"), (".bak", "binary"), (".old", "binary"),
   (".orig", "binary"),
   (".sample", "config"), (".template", "config"), (".example", "config"),
   (".gitkeep", "config"), (".gitattributes", "config"), (".gitignore", "config"),
   (".gitmodules", "config")]

/-- `Config.SUPPORTED_EXTENSIONS`, in dictionary (insertion) order. -/
def SUPPORTED_EXTENSIONS : List (String × List String) :=
  [("python", [".py", ".pyx", ".pyi", ".pyw"]),
   ("javascript", [".js", ".jsx", ".mjs", ".cjs"]),
   ("typescript", [".ts", ".tsx", ".d.ts"]),
   ("java", [".java"]),
   ("kotlin", [".kt", ".kts"]),
   ("scala", [".scala"]),
   ("cpp", [".cpp", ".cxx", ".cc", ".c", ".hpp", ".h", ".hxx"]),
   ("csharp", [".cs", ".csx"]),
   ("go", [".go"]),
   ("rust", [".rs"]),
   ("php", [".php", ".phtml", ".php3", ".php4", ".php5", ".phps"]),
   ("ruby", [".rb", ".rbw", ".rake"]),
   ("swift", [".swift"]),
   ("shell", [".sh", ".bash", ".zsh", ".fish", ".csh", ".tcsh"]),
   ("powershell", [".ps1", ".psm1", ".psd1"]),
   ("sql", [".sql"]),
   ("html", [".html", ".htm", ".xhtml"]),
   ("css", [".css", ".scss", ".sass", ".less", ".styl"]),
   ("markdown", [".md", ".markdown", ".mdown", ".mkd"]),
   ("yaml", [".yml", ".yaml"]),
   ("json", [".json", ".jsonc", ".json5"]),
   ("xml", [".xml", ".xsd", ".xsl", ".xslt"]),
   ("toml", [".toml"]),
   ("ini", [".ini", ".cfg", ".conf"]),
   ("dockerfile", [".dockerfile"]),
   ("text", [".txt", ".text", ".readme"]),
   ("perl", [".pl", ".pm", ".t"]),
   ("lua", [".lua"]),
   ("r", [".r", ".R"]),
   ("matlab", [".m"]),
   ("haskell", [".hs", ".lhs"]),
   ("erlang", [".erl", ".hrl"]),
   ("elixir", [".ex", ".exs"]),
   ("clojure", [".clj", ".cljs", ".cljc"]),
   ("scheme", [".scm", ".ss"]),
   ("lisp", [".lisp", ".lsp"]),
   ("fortran", [".f", ".for", ".f90", ".f95"]),
   ("pascal", [".pas"]),
   ("ada", [".adb", ".ads"]),
   ("dart", [".dart"]),
   ("julia", [".jl"]),
   ("nim", [".nim"]),
   ("crystal", [".cr"]),
   ("zig", [".zig"])]

/-- `Config.BINARY_EXTENSIONS` (a set; the duplicated `.so` is harmless). -/
def BINARY_EXTENSIONS : List String :=
  [".exe", ".dll", ".so", ".dylib", ".a", ".lib", ".o", ".obj", ".com", ".bat",
   ".cmd", ".msi", ".dmg", ".pkg", ".deb", ".rpm",
   ".zip", ".tar", ".gz", ".bz2", ".xz", ".7z", ".rar", ".ace", ".arj", ".cab",
   ".lzh", ".lha", ".sit", ".sea", ".bin", ".hqx", ".uu",
   ".jpg", ".jpeg", ".png", ".gif", ".bmp", ".svg", ".ico", ".tiff", ".tif",
   ".webp", ".psd", ".ai", ".eps", ".raw", ".cr2", ".nef", ".orf", ".sr2",
   ".mp3", ".mp4", ".avi", ".mov", ".wmv", ".flv", ".mkv", ".webm", ".m4v",
   ".3gp", ".ogv", ".wav", ".flac", ".aac", ".ogg", ".wma",
   ".pdf", ".doc", ".docx", ".xls", ".xlsx", ".ppt", ".pptx", ".odt", ".ods",
   ".odp", ".rtf", ".pages", ".numbers", ".key",
   ".woff", ".woff2", ".ttf", ".eot", ".otf", ".pfb", ".pfm",
   ".class", ".jar", ".war", ".ear", ".pyc", ".pyo", ".pyd", ".node", ".so",
   ".bundle"]

/-- Association-list lookup used for the Python dictionary tables. -/
def lookupVal {α : Type} (tbl : List (String × α)) (k : String) : Option α :=
  match tbl with
  | [] => none
  | (k', v) :: rest => if k' = k then some v else lookupVal rest k

/-- `Config.get_file_category(filename)` (`config.py`). -/
def getFileCategory (filename : String) : String :=
  if filename = "" then "unknown"
  else
    let normalized := strStrip (strLower filename)
    if normalized ∈ SKIP_FILES then "skip"
    else if h : (lookupVal SPECIAL_FILES normalized).isSome then
      (lookupVal SPECIAL_FILES normalized).get h
    else
      match (MULTI_PART_EXTENSIONS.find? fun p => strEndsWith normalized (strLower p.1)) with
      | some p => p.2
      | none =>
        let suffixes := pathSuffixes filename
        let fromSuffixes : Option String :=
          if suffixes ≠ [] then
            let lastSuffix := strLower (suffixes.getLastD "")
            if lastSuffix ∈ BINARY_EXTENSIONS then some "binary"
            else
              match (SUPPORTED_EXTENSIONS.find? fun p => lastSuffix ∈ p.2) with
              | some p => some p.1
              | none =>
                if suffixes.length > 1 then
                  let combined := strLower ⟨(suffixes.map String.data).flatten⟩
                  match (SUPPORTED_EXTENSIONS.find? fun p => combined ∈ p.2) with
                  | some p => some p.1
                  | none => none
                else none
          else none
        match fromSuffixes with
        | some c => c
        | none =>
          if strContains "test" normalized || strContains "spec" normalized then "text"
          else if strContains "config" normalized || strContains "conf" normalized ||
                  strContains "cfg" normalized then "config"
          else if strContains "readme" normalized || strContains "license" normalized ||
                  strContains "changelog" normalized then "text"
          else "text"

/-- `Config.should_skip_file(filename)`: category is `skip` or `binary`. -/
def shouldSkipFile (filename : String) : Bool :=
  getFileCategory filename ∈ ["skip", "binary"]

/-! ### `ValidationUtils.validate_file_path` (`utils.py`) -/

/-- `ValidationUtils.validate_file_path`: path-traversal / absolute-path safety check. -/
def validateFilePath (p : String) : Bool :=
  if p = "" then false
  else if strContains ".." p then false
  else if strStartsWith p "/" then false
  else if strLength p > 1 ∧ p.data.get? 1 = some ':' then false
  else if strContains "\\" p then false
  else if strStartsWith p "./" || strContains "/./" p then false
  else true

/-! ### Data model -/

/-- A raw repository file record `{path, size, content}` as handed to the core. -/
structure FileRecord where
  path : String
  size : Nat
  content : String
deriving DecidableEq

/-! ### `LanguageDetector` (`file_processor.py`) -/

/-- `LanguageDetector.code_extensions`. -/
def codeExtensions : List String :=
  [".py", ".js", ".ts", ".tsx", ".jsx", ".java", ".cpp", ".c", ".h", ".hpp",
   ".cs", ".go", ".rs", ".php", ".rb", ".swift", ".kt", ".scala", ".clj",
   ".hs", ".ml", ".elm", ".dart", ".lua", ".r", ".m", ".sh", ".ps1", ".bat"]

/-- `LanguageDetector.data_extensions`. -/
def dataExtensions : List String :=
  [".json", ".xml", ".yaml", ".yml", ".toml", ".ini", ".conf", ".cfg",
   ".csv", ".tsv", ".sql", ".log", ".txt"]

/-- `LanguageDetector.markup_extensions`. -/
def markupExtensions : List String :=
  [".html", ".htm", ".xhtml", ".xml", ".svg", ".md", ".rst", ".tex"]

/-- The inline `extension_map` of `detect_language_by_extension`. -/
def extensionMap : List (String × String) :=
  [(".py", "python"), (".pyx", "python"), (".pyi", "python"),
   (".js", "javascript"), (".jsx", "javascript"), (".mjs", "javascript"),
   (".ts", "typescript"), (".tsx", "typescript"),
   (".java", "java"),
   (".cpp", "cpp"), (".cxx", "cpp"), (".cc", "cpp"), (".c", "cpp"),
   (".hpp", "cpp"), (".h", "cpp"), (".hxx", "cpp"),
   (".cs", "csharp"), (".go", "go"), (".rs", "rust"),
   (".php", "php"), (".phtml", "php"),
   (".rb", "ruby"), (".rake", "ruby"),
   (".swift", "swift"), (".kt", "kotlin"), (".kts", "kotlin"),
   (".scala", "scala"),
   (".sh", "shell"), (".bash", "shell"), (".zsh", "shell"),
   (".ps1", "powershell"), (".psm1", "powershell"),
   (".html", "html"), (".htm", "html"), (".xhtml", "html"),
   (".css", "css"), (".scss", "css"), (".sass", "css"), (".less", "css"),
   (".json", "json"), (".xml", "xml"),
   (".yml", "yaml"), (".yaml", "yaml"),
   (".md", "markdown"), (".markdown", "markdown"),
   (".txt", "text"), (".sql", "sql"), (".dockerfile", "dockerfile")]

/-- `LanguageDetector.detect_language_by_extension(filename)`. -/
def detectLanguageByExtension (filename : String) : String :=
  if filename = "" then "unknown"
  else (lookupVal extensionMap (strLower (pathSuffix filename))).getD "unknown"

/-- The ordered per-language content-pattern table of `detect_language_by_content`. -/
def contentPatterns : List (String × List String) :=
  [("python", ["def\\s+\\w+\\s*\\(", "import\\s+\\w+", "from\\s+\\w+\\s+import",
               "class\\s+\\w+"]),
   ("javascript", ["function\\s+\\w+\\s*\\(", "var\\s+\\w+\\s*=", "let\\s+\\w+\\s*=",
                   "const\\s+\\w+\\s*=", "require\\s*\\("]),
   ("typescript", ["interface\\s+\\w+", "type\\s+\\w+\\s*=", "enum\\s+\\w+",
                   ":\\s*(string|number|boolean)"]),
   ("java", ["public\\s+class\\s+\\w+", "public\\s+static\\s+void\\s+main",
             "import\\s+java\\."]),
   ("cpp", ["#include\\s*<\\w+>", "using\\s+namespace", "std::", "int\\s+main\\s*\\("]),
   ("csharp", ["using\\s+System", "namespace\\s+\\w+", "public\\s+class\\s+\\w+",
               "Console\\.WriteLine"]),
   ("go", ["package\\s+\\w+", "import\\s*\\(", "func\\s+\\w+\\s*\\(",
           "var\\s+\\w+\\s+\\w+"]),
   ("rust", ["fn\\s+\\w+\\s*\\(", "use\\s+\\w+", "struct\\s+\\w+", "impl\\s+\\w+"]),
   ("php", ["<\\?php", "\\$\\w+\\s*=", "function\\s+\\w+\\s*\\(", "class\\s+\\w+"]),
   ("ruby", ["def\\s+\\w+", "class\\s+\\w+", "require\\s+", "puts\\s+"]),
   ("html", ["<[^>]+>.*</\\w+>"]),
   ("css", ["[\\w-]+\\s*:\\s*[^;]+\\s*;", "@media", "\\.[\\w-]+\\s*\\\x7b",
            "#[\\w-]+\\s*\\\x7b"]),
   ("json", ["^\\s*\x7b.*\x7d\\s*$", "^\\s*\\[.*\\]\\s*$"]),
   ("yaml", ["^\\s*\\w+\\s*:", "^\\s*-\\s+\\w+"]),
   ("xml", ["<\\?xml", "<\\w+.*?>.*</\\w+>"]),
   ("sql", ["SELECT\\s+", "INSERT\\s+INTO", "UPDATE\\s+", "DELETE\\s+FROM"]),
   ("dockerfile", ["FROM\\s+", "RUN\\s+", "COPY\\s+", "WORKDIR\\s+"])]

/-- Python's `max(scores.items(), key=lambda x: x[1])[0]`: the first key with
maximal score, in iteration order. -/
def pickMaxScore : List (String × Nat) → Option String
  | [] => none
  | x :: xs => some ((xs.foldl (fun best y => if y.2 > best.2 then y else best) x).1)

/-- `LanguageDetector.detect_language_by_content(content, filename)`.
`rsearch`/`rcount` model `re.search`/`len(re.findall ...)`. -/
def detectLanguageByContent (rsearch : String → String → Bool)
    (rcount : String → String → Nat) (content : String) (filename : String) : String :=
  if content = "" then "unknown"
  else if filename ≠ "" ∧ detectLanguageByExtension filename ≠ "unknown" then
    detectLanguageByExtension filename
  else
    let sample := strTake content 1000
    if rsearch "^#!/usr/bin/env python|^#!/usr/bin/python|^#.*python" content then "python"
    else if rsearch "^#!/bin/bash|^#!/bin/sh" content then "shell"
    else if rsearch "^#!/usr/bin/env node" content then "javascript"
    else
      let scores := contentPatterns.filterMap fun p =>
        let s := (p.2.map fun pat => rcount pat sample).sum
        if s > 0 then some (p.1, s) else none
      match pickMaxScore scores with
      | some l => l
      | none => "text"

/-- The languages with their own `complexity_indicators` pattern list. -/
def complexityLangs : List String :=
  ["python", "javascript", "typescript", "java", "cpp"]

/-- The per-language `complexity_indicators` pattern lists; any other language
falls back to the Python list (`.get(language, .get("python"))`). -/
def complexityIndicators (language : String) : List String :=
  if language = "python" then
    ["\\bif\\b", "\\belse\\b", "\\belif\\b", "\\bfor\\b", "\\bwhile\\b",
     "\\btry\\b", "\\bexcept\\b", "\\bwith\\b", "\\bclass\\b", "\\bdef\\b"]
  else if language = "javascript" ∨ language = "typescript" then
    ["\\bif\\b", "\\belse\\b", "\\bfor\\b", "\\bwhile\\b", "\\bswitch\\b",
     "\\bcatch\\b", "\\bfunction\\b", "\\bclass\\b", "=>", "\\?.*:"]
  else if language = "java" then
    ["\\bif\\b", "\\belse\\b", "\\bfor\\b", "\\bwhile\\b", "\\bswitch\\b",
     "\\bcatch\\b", "\\bclass\\b", "\\bpublic\\b", "\\bprivate\\b"]
  else if language = "cpp" then
    ["\\bif\\b", "\\belse\\b", "\\bfor\\b", "\\bwhile\\b", "\\bswitch\\b",
     "\\bcatch\\b", "\\bclass\\b", "\\bstruct\\b", "\\btemplate\\b"]
  else
    ["\\bif\\b", "\\belse\\b", "\\belif\\b", "\\bfor\\b", "\\bwhile\\b",
     "\\btry\\b", "\\bexcept\\b", "\\bwith\\b", "\\bclass\\b", "\\bdef\\b"]

/-- Total pattern-match count of `calculate_complexity`'s loop. -/
def complexityMatches (rcount : String → String → Nat)
    (content language : String) : Nat :=
  ((complexityIndicators language).map fun pat => rcount pat content).sum

/-- `LanguageDetector.calculate_complexity(content, language)`. -/
def calculateComplexity (rcount : String → String → Nat)
    (content language : String) : ℚ :=
  if content = "" ∨ strStrip content = "" then 1
  else
    let totalLines := splitlinesCount content
    if totalLines = 0 then 1
    else
      min (1 + ((complexityMatches rcount content language : ℚ) / (totalLines : ℚ)) * 9) 10

/-- `LanguageDetector._get_primary_extension_for_language(language)`. -/
def primaryExtensionForLanguage (language : String) : String :=
  (lookupVal
    [("python", ".py"), ("javascript", ".js"), ("typescript", ".ts"),
     ("java", ".java"), ("cpp", ".cpp"), ("csharp", ".cs"), ("go", ".go"),
     ("rust", ".rs"), ("php", ".php"), ("ruby", ".rb"), ("json", ".json"),
     ("xml", ".xml"), ("yaml", ".yml"), ("html", ".html"), ("css", ".css"),
     ("markdown", ".md")] language).getD ".txt"

/-- The per-language running totals of `detect_languages` (`defaultdict` entry). -/
structure LangStats where
  size : Nat
  count : Nat
  codeSize : Nat
  codeCount : Nat
deriving DecidableEq

/-- One file's contribution to a `LangStats` entry. -/
def statAdd (st : LangStats) (sz : Nat) (isCode : Bool) : LangStats :=
  { size := st.size + sz, count := st.count + 1,
    codeSize := st.codeSize + (if isCode then sz else 0),
    codeCount := st.codeCount + (if isCode then 1 else 0) }

/-- Update of the `language_stats` `defaultdict`: bump the entry for `lang`,
inserting it (at the end, i.e. in insertion order) when absent. -/
def updateStats : List (String × LangStats) → String → Nat → Bool → List (String × LangStats)
  | [], lang, sz, isCode => [(lang, statAdd ⟨0, 0, 0, 0⟩ sz isCode)]
  | (l, st) :: rest, lang, sz, isCode =>
    if l = lang then (l, statAdd st sz isCode) :: rest
    else (l, st) :: updateStats rest lang sz isCode

/-- The accumulator of `detect_languages`' first pass: the per-language stats map
plus the four grand totals. -/
structure DetectAcc where
  stats : List (String × LangStats)
  totalSize : Nat
  totalCount : Nat
  totalCodeSize : Nat
  totalCodeCount : Nat

/-- Per-file language resolution inside `detect_languages`: extension first,
content sniffing only for `unknown` with non-empty content. -/
def resolveLanguage (rsearch : String → String → Bool)
    (rcount : String → String → Nat) (path content : String) : String :=
  let l := detectLanguageByExtension path
  if l = "unknown" ∧ content ≠ "" then detectLanguageByContent rsearch rcount content path
  else l

/-- One iteration of `detect_languages`' accumulation loop (files of size < 10
are skipped). -/
def detectStep (rsearch : String → String → Bool) (rcount : String → String → Nat)
    (acc : DetectAcc) (f : FileRecord) : DetectAcc :=
  if f.size < 10 then acc
  else
    let language := resolveLanguage rsearch rcount f.path f.content
    let ext := strLower (pathSuffix f.path)
    let isCode : Bool := decide (ext ∈ codeExtensions)
    { stats := updateStats acc.stats language f.size isCode,
      totalSize := acc.totalSize + f.size,
      totalCount := acc.totalCount + 1,
      totalCodeSize := acc.totalCodeSize + (if isCode then f.size else 0),
      totalCodeCount := acc.totalCodeCount + (if isCode then 1 else 0) }

/-- `part / whole * 100` with the `if whole > 0 else 0` guard of the source. -/
def pctOf (part whole : Nat) : ℚ :=
  if whole > 0 then (part : ℚ) / (whole : ℚ) * 100 else 0

/-- The blended `weighted_percentage` of `detect_languages` (floats modelled as
exact rationals: `0.4 = 4/10` and so on). -/
def weightedPct (acc : DetectAcc) (st : LangStats) : ℚ :=
  let sizePct := pctOf st.size acc.totalSize
  let countPct := pctOf st.count acc.totalCount
  if acc.totalCodeSize > 0 ∧ st.codeSize > 0 then
    let codeSizePct := (st.codeSize : ℚ) / (acc.totalCodeSize : ℚ) * 100
    let codeCountPct := pctOf st.codeCount acc.totalCodeCount
    sizePct * (4/10) + countPct * (2/10) + codeSizePct * (3/10) + codeCountPct * (1/10)
  else
    sizePct * (6/10) + countPct * (4/10)

/-- `round(x, 1)` modelled as rounding to the nearest tenth (half up). -/
def round1 (q : ℚ) : ℚ :=
  (⌊q * 10 + 1/2⌋ : ℚ) / 10

/-- The pure-data-language penalty applied inside the `>= 3.0` branch:
languages with no code files whose primary extension is a data extension are
scaled by `0.7`. -/
def scoreOf (acc : DetectAcc) (lang : String) (st : LangStats) : ℚ :=
  let w := weightedPct acc st
  if st.codeCount = 0 ∧ st.count > 0 ∧ primaryExtensionForLanguage lang ∈ dataExtensions
  then w * (7/10) else w

/-- The `language_percentages` dict: entries (in stats insertion order) whose
weighted percentage clears the `3.0` threshold, with penalty and rounding. -/
def percListOf (acc : DetectAcc) : List (String × ℚ) :=
  acc.stats.filterMap fun p =>
    if weightedPct acc p.2 ≥ 3 then some (p.1, round1 (scoreOf acc p.1 p.2)) else none

/-- Descending order on the percentage value (Python's stable
`sorted(..., key=value, reverse=True)`). -/
def qDesc : (String × ℚ) → (String × ℚ) → Prop := fun a b => b.2 ≤ a.2

instance : DecidableRel qDesc := fun a b => inferInstanceAs (Decidable (b.2 ≤ a.2))

/-- `sorted_languages` before the anti-domination correction. -/
def sortedLangsOf (acc : DetectAcc) : List (String × ℚ) :=
  List.insertionSort qDesc (percListOf acc)

/-- Dictionary write `m[k] = v` (keys are unique in all uses). -/
def setVal (m : List (String × ℚ)) (k : String) (v : ℚ) : List (String × ℚ) :=
  m.map fun p => if p.1 = k then (p.1, v) else p

/-- Dictionary update `m[k] = m[k] + b`. -/
def addVal (m : List (String × ℚ)) (k : String) (b : ℚ) : List (String × ℚ) :=
  m.map fun p => if p.1 = k then (p.1, p.2 + b) else p

/-- The anti-domination correction of `detect_languages`: when the top language
exceeds 70 and has no code files, subtract `min(top - 50, 20)` from it and
spread that evenly over the code-bearing languages present in the result. -/
def redistributed (acc : DetectAcc) (sorted : List (String × ℚ)) : List (String × ℚ) :=
  match sorted with
  | [] => []
  | (topLang, topPct) :: _ =>
    let topSt := (lookupVal acc.stats topLang).getD ⟨0, 0, 0, 0⟩
    if topPct > 70 ∧ topSt.codeCount = 0 then
      let redistribution := min (topPct - 50) 20
      let s1 := setVal sorted topLang (topPct - redistribution)
      let codeLangs := acc.stats.filterMap fun p =>
        if p.2.codeCount > 0 ∧ (lookupVal s1 p.1).isSome then some p.1 else none
      if codeLangs ≠ [] then
        let boost := redistribution / (codeLangs.length : ℚ)
        codeLangs.foldl (fun m l => addVal m l boost) s1
      else s1
    else sorted

/-- `LanguageDetector.detect_languages(files)`: the ordered language → weighted
percentage map. -/
def detectLanguages (rsearch : String → String → Bool)
    (rcount : String → String → Nat) (files : List FileRecord) : List (String × ℚ) :=
  let acc := files.foldl (detectStep rsearch rcount) ⟨[], 0, 0, 0, 0⟩
  let final := redistributed acc (sortedLangsOf acc)
  List.insertionSort qDesc (final.map fun p => (p.1, round1 p.2))

/-- `LanguageDetector.detect_primary_language(files)`. -/
def detectPrimaryLanguage (rsearch : String → String → Bool)
    (rcount : String → String → Nat) (files : List FileRecord) : String :=
  match detectLanguages rsearch rcount files with
  | [] => "unknown"
  | (l, _) :: _ => l

/-- `LanguageDetector.framework_patterns`, in dictionary order. -/
def frameworkPatterns : List (String × List (String × List String)) :=
  [("python",
    [("django", ["from django", "import django", "DJANGO_SETTINGS_MODULE",
                 "manage\\.py", "settings\\.py"]),
     ("flask", ["from flask", "import flask", "Flask\\(__name__\\)",
                "@app\\.route"]),
     ("fastapi", ["from fastapi", "import fastapi", "FastAPI\\(",
                  "@app\\.(get|post|put|delete)"]),
     ("pytest", ["import pytest", "def test_", "@pytest\\.", "conftest\\.py"])]),
   ("javascript",
    [("react", ["import.*react", "from.*react", "React\\.", "jsx|tsx",
                "useState|useEffect"]),
     ("vue", ["import.*vue", "from.*vue", "Vue\\.", "<template>", "\\.vue"]),
     ("angular", ["@angular", "@Component", "@Injectable", "@NgModule"]),
     ("express", ["require.*express", "import.*express", "app\\.get|app\\.post",
                  "express\\(\\)"]),
     ("nextjs", ["next/", "getStaticProps", "getServerSideProps",
                 "next\\.config"])]),
   ("typescript",
    [("angular", ["@angular", "@Component", "@Injectable"]),
     ("nestjs", ["@nestjs", "@Controller", "@Injectable", "@Module"])])]

/-- `framework_scores[fw] += s` on a `defaultdict(int)` modelled as an
association list in insertion order. -/
def bumpScore : List (String × Nat) → String → Nat → List (String × Nat)
  | [], fw, s => [(fw, s)]
  | (k, v) :: rest, fw, s =>
    if k = fw then (k, v + s) :: rest else (k, v) :: bumpScore rest fw s

/-- Descending order on the framework score. -/
def natDesc : (String × Nat) → (String × Nat) → Prop := fun a b => b.2 ≤ a.2

instance : DecidableRel natDesc := fun a b => inferInstanceAs (Decidable (b.2 ≤ a.2))

/-- `LanguageDetector.detect_frameworks(files, primary_language)`: per-framework
pattern scores (filename hit = 2, plus content matches over the first 5000
characters), thresholded at 3, top 3 by score. -/
def detectFrameworks (rsearch : String → String → Bool)
    (rcount : String → String → Nat) (files : List FileRecord)
    (primaryLanguage : Option String) : List String :=
  let primary := match primaryLanguage with
    | none => detectPrimaryLanguage rsearch rcount files
    | some p => if p = "" then detectPrimaryLanguage rsearch rcount files else p
  match lookupVal frameworkPatterns primary with
  | none => []
  | some fps =>
    let finalScores := files.foldl (fun scores f =>
      if f.content = "" then scores
      else
        let filename := strLower (pathName f.path)
        fps.foldl (fun scores fw =>
          let s := (fw.2.map fun pat =>
            (if rsearch pat filename then 2 else 0) + rcount pat (strTake f.content 5000)).sum
          if s > 0 then bumpScore scores fw.1 s else scores) scores) []
    let detected := finalScores.filter fun p => p.2 ≥ 3
    ((List.insertionSort natDesc detected).map Prod.fst).take 3

/-! ### `DependencyExtractor` (`file_processor.py`)

The per-language manifest/import parsers are regex-driven; they are modelled by
an abstract parameter `parse primary f : Option (List String)` (`none` models a
per-file exception, which the source catches and skips). The dispatch table,
the 100-candidate cut-off, the length/dot filter, sorting, deduplication and
the 30-entry truncation are embedded from the source. -/

/-- The keys of `DependencyExtractor.extractors`. -/
def supportedDepLangs : List String :=
  ["python", "javascript", "typescript", "java", "go", "rust", "csharp"]

/-- Lexicographic comparison of strings by code point, Python's `<=` on `str`. -/
def charListLe : List Char → List Char → Bool
  | [], _ => true
  | _ :: _, [] => false
  | a :: as, b :: bs =>
    if a.toNat < b.toNat then true
    else if b.toNat < a.toNat then false
    else charListLe as bs

/-- `a <= b` for Python string sorting. -/
def strLeProp : String → String → Prop := fun a b => charListLe a.data b.data = true

instance : DecidableRel strLeProp := fun a b =>
  inferInstanceAs (Decidable (charListLe a.data b.data = true))

/-- The `all_deps` set accumulation: union per file, skip failing files, stop
once more than 100 distinct candidates are collected. -/
def accumDeps (parse : FileRecord → Option (List String)) :
    List FileRecord → List String → List String
  | [], acc => acc
  | f :: rest, acc =>
    match parse f with
    | none => accumDeps parse rest acc
    | some ds =>
      let acc' := ds.foldl (fun a d => if d ∈ a then a else a ++ [d]) acc
      if acc'.length > 100 then acc' else accumDeps parse rest acc'

/-- `DependencyExtractor.extract_dependencies(files, primary_language)`. -/
def extractDependencies (parse : String → FileRecord → Option (List String))
    (files : List FileRecord) (primaryLanguage : String) : List String :=
  if primaryLanguage ∉ supportedDepLangs then []
  else
    let allDeps := accumDeps (parse primaryLanguage) files []
    let filtered := allDeps.filter fun d =>
      strLength d > 1 ∧ strLength d < 50 ∧ ¬ strStartsWith d "."
    (List.insertionSort strLeProp filtered).take 30

/-! ### `FilePrioritizer` (`file_processor.py`) -/

/-- The `priority_breakdown` attached to each scored file (the depth penalty is
stored negated, as in the source). -/
structure Breakdown where
  base : Int
  language : Int
  importance : Int
  framework : Int
  complexity : Int
  size : Int
  content : Int
  depth_penalty : Int
deriving DecidableEq

/-- Sum of the eight `priority_breakdown` contributions. -/
def sumBreakdown (b : Breakdown) : Int :=
  b.base + b.language + b.importance + b.framework + b.complexity + b.size +
    b.content + b.depth_penalty

/-- A file record enriched by the prioritizer; `Option` fields model dictionary
keys that are present only on some code paths. -/
structure ScoredFile where
  path : String
  size : Nat
  content : String
  priority : Int
  language : Option String
  complexity : Option ℚ
  breakdown : Option Breakdown
deriving DecidableEq

/-- `FilePrioritizer._get_base_priority_by_category(category)`. -/
def basePriorityOfCategory (category : String) : Int :=
  (lookupVal
    [("python", 800), ("javascript", 750), ("typescript", 750), ("java", 700),
     ("cpp", 650), ("csharp", 650), ("go", 650), ("rust", 650), ("php", 600),
     ("ruby", 600), ("swift", 580), ("kotlin", 580), ("scala", 570),
     ("dockerfile", 900), ("makefile", 800), ("config", 550), ("yaml", 500),
     ("json", 500), ("xml", 400), ("markdown", 400), ("text", 300),
     ("binary", 0), ("skip", 0)] category).getD 200

/-- The exact-filename table of `_calculate_importance_bonus`. -/
def importanceTable : List (String × Int) :=
  [("readme.md", 300), ("readme.txt", 250), ("changelog.md", 150),
   ("license", 100), ("contributing.md", 100),
   ("dockerfile", 400), ("docker-compose.yml", 350), ("makefile", 300),
   ("package.json", 250), ("requirements.txt", 200), ("setup.py", 200),
   ("pyproject.toml", 200), ("cargo.toml", 200), ("go.mod", 200),
   ("pom.xml", 180), ("build.gradle", 180), (".gitignore", 100),
   ("main.py", 300), ("main.js", 300), ("index.js", 300), ("index.html", 250),
   ("app.py", 300), ("server.py", 250), ("manage.py", 200),
   ("config.py", 180), ("settings.py", 200), ("wsgi.py", 150), ("asgi.py", 150)]

/-- `FilePrioritizer._calculate_importance_bonus(filename, full_path)`. -/
def calcImportanceBonus (rsearch : String → String → Bool)
    (filename fullPath : String) : Int :=
  match lookupVal importanceTable filename with
  | some v => v
  | none =>
    (if rsearch "\\b(main|index|app|server)\\b" filename then 200 else 0)
    + (if rsearch "\\b(test|spec)s?\\b" filename ∧
          ¬ strContains "node_modules" fullPath = true then 50 else 0)
    + (if rsearch "\\b(config|settings|env)\\b" filename then 100 else 0)
    + (if rsearch "\\b(api|endpoint|route|view)s?\\b" filename then 150 else 0)
    + (if rsearch "\\b(model|schema|entity)s?\\b" filename then 120 else 0)

/-- The pattern → bonus table of `_calculate_framework_bonus`. -/
def frameworkBonusTable : List (String × Int) :=
  [("\\bfrom django\\b|\\bimport django\\b", 150),
   ("\\bfrom flask\\b|\\bFlask\\(", 150),
   ("\\bfrom fastapi\\b|\\bFastAPI\\(", 150),
   ("\\bfastapi\\b.*\\bApp", 100),
   ("\\bfrom [\x27\"]react[\x27\"]|\\bimport.*react", 150),
   ("\\bfrom [\x27\"]vue[\x27\"]|\\bVue\\.", 150),
   ("\\b@angular\\b|\\bAngular", 150),
   ("\\bexpress\\(\\)|\\brequire.*express", 120),
   ("\\bnext/|\\bgetStaticProps", 130),
   ("\\bwebpack\\b|\\brollup\\b|\\bvite\\b", 100),
   ("\\bbabel\\b|\\b@babel", 80),
   ("\\bjest\\b|\\bcypress\\b", 70),
   ("\\bsqlalchemy\\b|\\bdjango\\.db", 100),
   ("\\bmongoose\\b|\\bmongodb", 90),
   ("\\bexport default\\b|\\bmodule\\.exports", 50),
   ("\\bclass\\s+\\w+.*Component", 100)]

/-- `FilePrioritizer._calculate_framework_bonus(content, language)`: pattern
sweep over the first 2000 characters, capped at 300. -/
def calcFrameworkBonus (rsearch : String → String → Bool) (content : String) : Int :=
  if content = "" then 0
  else
    let sample := strTake content 2000
    min ((frameworkBonusTable.map fun p =>
      if rsearch p.1 sample then p.2 else 0).sum) 300

/-- `FilePrioritizer._calculate_size_factor(size)`. -/
def calcSizeFactor (size : Nat) : Int :=
  if size = 0 then -50
  else if size > MAX_FILE_SIZE then -200
  else if size < 100 then -30
  else if size ≤ 5000 then 30
  else if size ≤ 20000 then 10
  else if size ≤ 50000 then -10
  else -30

/-- The per-extension comment-line regex table of `_calculate_comment_ratio`. -/
def commentPatternFor (fileExt : String) : Option String :=
  lookupVal
    [(".py", "^\\s*#"), (".js", "^\\s*//|/\\*.*?\\*/"), (".ts", "^\\s*//|/\\*.*?\\*/"),
     (".java", "^\\s*//|/\\*.*?\\*/"), (".cpp", "^\\s*//|/\\*.*?\\*/"),
     (".c", "^\\s*//|/\\*.*?\\*/")] fileExt

/-- `FilePrioritizer._calculate_comment_ratio(content, file_ext)`. -/
def commentFrac (rcount : String → String → Nat)
    (content fileExt : String) : ℚ :=
  if content = "" then 0
  else
    let totalLines := splitlinesCount content
    if totalLines = 0 then 0
    else
      match commentPatternFor fileExt with
      | none => 0
      | some pat => (rcount pat content : ℚ) / (totalLines : ℚ)

/-- `FilePrioritizer._calculate_content_quality_bonus(content, file_ext)`. -/
def calcContentQualityBonus (rsearch : String → String → Bool)
    (rcount : String → String → Nat) (content fileExt : String) : Int :=
  if content = "" then 0
  else
    (if strLength (strStrip content) > 50 then 20 else 0)
    + (if fileExt ∈ [".py", ".js", ".ts", ".java", ".cpp"] ∧
          commentFrac rcount content fileExt > 1/10 then 30 else 0)
    + (if rsearch "\\b(class|function|def|interface|struct)\\s+\\w+" content
       then 40 else 0)
    + (if rsearch "\\b(import|include|require|from)\\s+" content then 20 else 0)

/-- `FilePrioritizer._calculate_priority_score(file_info, target_language, context)`
(`context` is accepted but unused by the source). -/
def calcPriorityScore (rsearch : String → String → Bool)
    (rcount : String → String → Nat) (f : FileRecord) (targetLanguage : String) :
    ScoredFile :=
  if f.path = "" then
    { path := f.path, size := f.size, content := f.content, priority := 50,
      language := none, complexity := none, breakdown := none }
  else
    let filename := strLower (pathName f.path)
    let fileExt := strLower (pathSuffix f.path)
    let directoryDepth : Int := (partsCount f.path : Int) - 1
    let category := getFileCategory filename
    let basePriority := basePriorityOfCategory category
    let detected :=
      let d := detectLanguageByExtension filename
      if d = "unknown" ∧ f.content ≠ "" then
        detectLanguageByContent rsearch rcount f.content filename
      else d
    let languageBonus : Int :=
      if detected = targetLanguage then 200
      else if detected ∈ ["python", "javascript", "typescript", "java"] then 100
      else 0
    let importanceBonus := calcImportanceBonus rsearch filename f.path
    let frameworkBonus := calcFrameworkBonus rsearch f.content
    let cpx : Option ℚ :=
      if f.content ≠ "" ∧ detected ∈ ["python", "javascript", "typescript", "java", "cpp"]
      then some (calculateComplexity rcount f.content detected) else none
    let complexityBonus : Int :=
      match cpx with
      | some q => min ⌊q * 50⌋ 200
      | none => 0
    let sizeFactor := calcSizeFactor f.size
    let depthPenalty : Int := min (directoryDepth * 25) 150
    let contentBonus := calcContentQualityBonus rsearch rcount f.content fileExt
    let finalPriority := basePriority + languageBonus + importanceBonus +
      frameworkBonus + complexityBonus + sizeFactor + contentBonus - depthPenalty
    { path := f.path, size := f.size, content := f.content,
      priority := max finalPriority 10,
      language := some detected,
      complexity := cpx,
      breakdown := some
        { base := basePriority, language := languageBonus,
          importance := importanceBonus, framework := frameworkBonus,
          complexity := complexityBonus, size := sizeFactor,
          content := contentBonus, depth_penalty := -depthPenalty } }

/-- The record appended by `prioritize_files`' `except` branch: the original
file with `priority = 100` and no further enrichment. -/
def exceptScored (f : FileRecord) : ScoredFile :=
  { path := f.path, size := f.size, content := f.content, priority := 100,
    language := none, complexity := none, breakdown := none }

/-- Descending order on `priority` (Python's stable
`sort(key=priority, reverse=True)`). -/
def prioDesc : ScoredFile → ScoredFile → Prop := fun a b => b.priority ≤ a.priority

instance : DecidableRel prioDesc := fun a b => inferInstanceAs (Decidable (b.priority ≤ a.priority))

/-- The `if not target_language:` auto-detection of `prioritize_files`
(`None` and the empty string both trigger language auto-detection). -/
def resolveTarget (rsearch : String → String → Bool)
    (rcount : String → String → Nat) (files : List FileRecord)
    (targetLanguage : Option String) : String :=
  match targetLanguage with
  | none => detectPrimaryLanguage rsearch rcount files
  | some t => if t = "" then detectPrimaryLanguage rsearch rcount files else t

/-- `FilePrioritizer.prioritize_files(files, target_language, context)`.
`raises f = true` models a per-file exception inside the scoring call, which
the source catches, assigning `priority = 100` and continuing the batch. -/
def prioritizeFiles (rsearch : String → String → Bool)
    (rcount : String → String → Nat) (raises : FileRecord → Bool)
    (files : List FileRecord) (targetLanguage : Option String) : List ScoredFile :=
  if files = [] then []
  else
    let target := resolveTarget rsearch rcount files targetLanguage
    let scored := files.map fun f =>
      if raises f then exceptScored f else calcPriorityScore rsearch rcount f target
    List.insertionSort prioDesc scored

/-! ### `FileProcessor` (`file_processor.py`) -/

/-- The binary-extension set local to `FileProcessor._is_likely_binary`. -/
def likelyBinaryExtensions : List String :=
  [".exe", ".dll", ".so", ".dylib", ".bin", ".img", ".iso", ".zip", ".tar",
   ".gz", ".rar", ".7z", ".jpg", ".jpeg", ".png", ".gif", ".bmp", ".svg",
   ".ico", ".mp3", ".mp4", ".avi", ".mov", ".pdf", ".doc", ".docx", ".xls",
   ".xlsx", ".ppt", ".pptx"]

/-- `FileProcessor._is_likely_binary(path, content)`: binary extension, a NUL
byte, or more than 30% non-printable characters in the first 1000 characters
(the `UnicodeEncodeError` branch cannot fire for well-formed strings). -/
def isLikelyBinary (path content : String) : Bool :=
  if path = "" then false
  else if strLower (pathSuffix path) ∈ likelyBinaryExtensions then true
  else if content ≠ "" then
    if content.data.contains (Char.ofNat 0) then true
    else
      let sample := strTake content 1000
      let nonPrintable := (sample.data.filter fun c =>
        c.val < 32 ∧ c ∉ ['\n', '\r', '\t']).length
      decide (10 * nonPrintable > 3 * strLength sample)
  else false

/-- `FileProcessor._is_important_empty_file(path)`. -/
def isImportantEmptyFile (path : String) : Bool :=
  strLower (pathName path) ∈ ["__init__.py", ".gitkeep", ".keep"]

/-- `FileProcessor._apply_basic_filtering(files)`: path validity, size cap,
skip/binary category, binary sniff, and the empty-file rule. -/
def applyBasicFiltering (files : List FileRecord) : List FileRecord :=
  files.filter fun f =>
    validateFilePath f.path = true ∧
    f.size ≤ MAX_FILE_SIZE ∧
    shouldSkipFile f.path = false ∧
    isLikelyBinary f.path f.content = false ∧
    (f.size ≠ 0 ∨ isImportantEmptyFile f.path = true)

/-- The four priority tiers of `_group_by_priority_tiers`, in dictionary order
critical / high / medium / low (filters preserve the source's single-pass
grouping order). -/
structure Tiers where
  critical : List ScoredFile
  high : List ScoredFile
  medium : List ScoredFile
  low : List ScoredFile

/-- `FileProcessor._group_by_priority_tiers(files)`. -/
def groupByPriorityTiers (files : List ScoredFile) : Tiers :=
  { critical := files.filter fun f => f.priority ≥ 800,
    high := files.filter fun f => 600 ≤ f.priority ∧ f.priority < 800,
    medium := files.filter fun f => 400 ≤ f.priority ∧ f.priority < 600,
    low := files.filter fun f => f.priority < 400 }

/-- The `context` dict consumed by the selection engine. -/
structure Context where
  maxTotalSize : Option Nat
  maxFiles : Option Nat
deriving DecidableEq

/-- The inner per-tier loop of `_perform_smart_selection`: returns the updated
`(selected_files, total_size)`. A file whose size would exceed the byte budget
is skipped when smaller than 10% of the budget (small-file salvage) and
otherwise breaks the tier; the count check breaks the tier. The float
comparison `file_size < size_limit * 0.1` is modelled exactly as
`10 * size < limit`. -/
def selectFromTier (sizeLimit countLimit : Nat) :
    List ScoredFile → List ScoredFile → Nat → List ScoredFile × Nat
  | [], selected, totalSize => (selected, totalSize)
  | f :: rest, selected, totalSize =>
    if totalSize + f.size > sizeLimit then
      if 10 * f.size < sizeLimit then selectFromTier sizeLimit countLimit rest selected totalSize
      else (selected, totalSize)
    else if selected.length ≥ countLimit then (selected, totalSize)
    else selectFromTier sizeLimit countLimit rest (selected ++ [f]) (totalSize + f.size)

/-- `FileProcessor._perform_smart_selection(prioritized_files, context)`: walk
the four tiers in order, stopping globally once the count budget is reached or
the accumulated size reaches 90% of the byte budget (modelled exactly as
`10 * total >= 9 * limit`). -/
def smartSelection (prioritizedFiles : List ScoredFile) (context : Context) :
    List ScoredFile :=
  if prioritizedFiles = [] then []
  else
    let sizeLimit := context.maxTotalSize.getD MAX_TOTAL_SIZE_BYTES
    let countLimit := context.maxFiles.getD MAX_FILES_COUNT
    let tiers := groupByPriorityTiers prioritizedFiles
    let r1 := selectFromTier sizeLimit countLimit tiers.critical [] 0
    if r1.1.length ≥ countLimit ∨ 10 * r1.2 ≥ 9 * sizeLimit then r1.1
    else
      let r2 := selectFromTier sizeLimit countLimit tiers.high r1.1 r1.2
      if r2.1.length ≥ countLimit ∨ 10 * r2.2 ≥ 9 * sizeLimit then r2.1
      else
        let r3 := selectFromTier sizeLimit countLimit tiers.medium r2.1 r2.2
        if r3.1.length ≥ countLimit ∨ 10 * r3.2 ≥ 9 * sizeLimit then r3.1
        else (selectFromTier sizeLimit countLimit tiers.low r3.1 r3.2).1

/-- Sum of the `size` fields of a selected list. -/
def sumSizes (files : List ScoredFile) : Nat :=
  (files.map fun f => f.size).sum

/-- The `complexity_distribution` buckets. -/
structure ComplexityDistribution where
  simple : Nat
  moderate : Nat
  complex : Nat
  veryComplex : Nat
deriving DecidableEq

/-- `FileProcessor._analyze_complexity_distribution(scores)` bucket counts. -/
def analyzeComplexityDistribution (scores : List ℚ) : ComplexityDistribution :=
  { simple := (scores.filter fun s => s ≤ 2).length,
    moderate := (scores.filter fun s => 2 < s ∧ s ≤ 4).length,
    complex := (scores.filter fun s => 4 < s ∧ s ≤ 7).length,
    veryComplex := (scores.filter fun s => 7 < s).length }

/-- `breakdown[language]` update on the `defaultdict` of
`_generate_language_breakdown`. -/
def bumpBreakdownEntry : List (String × (Nat × Nat × Nat)) → String → Nat → Nat →
    List (String × (Nat × Nat × Nat))
  | [], language, sz, ln => [(language, (1, sz, ln))]
  | (k, (n, s, l)) :: rest, language, sz, ln =>
    if k = language then (k, (n + 1, s + sz, l + ln)) :: rest
    else (k, (n, s, l)) :: bumpBreakdownEntry rest language sz ln

/-- `FileProcessor._generate_language_breakdown(files)`: per-language
`(files, size, lines)` totals, in first-appearance order. -/
def generateLanguageBreakdown (files : List ScoredFile) :
    List (String × (Nat × Nat × Nat)) :=
  files.foldl (fun acc f =>
    let language := f.language.getD "unknown"
    let lines := if f.content = "" then 0 else splitlinesCount f.content
    bumpBreakdownEntry acc language f.size lines) []

/-- `FileProcessor._analyze_file_types(files)`: extension histogram. -/
def analyzeFileTypes (files : List ScoredFile) : List (String × Nat) :=
  files.foldl (fun acc f =>
    if f.path = "" then acc
    else
      let ext := (pathSuffix f.path).toLower
      bumpScore acc (if ext = "" then "no_extension" else ext) 1) []

/-- `round(x, 2)` modelled as rounding to the nearest hundredth (half up). -/
def round2 (q : ℚ) : ℚ :=
  (⌊q * 100 + 1/2⌋ : ℚ) / 100

/-- The `analysis_info` dictionary: either the error marker produced when no
valid file survives filtering, or the full aggregate record (the wall-clock
`processing_stats` entry is omitted). -/
inductive AnalysisInfo where
  | error (msg : String)
  | info (primaryLanguage : String) (languages : List (String × ℚ))
      (detectedFrameworks : List String) (dependencies : List String)
      (totalFilesProcessed : Nat) (filesFiltered : Nat)
      (selectedFilesCount : Nat) (totalSize : Nat) (totalLines : Nat)
      (averageComplexity : ℚ) (complexityDistribution : ComplexityDistribution)
      (languageBreakdown : List (String × (Nat × Nat × Nat)))
      (fileTypeDistribution : List (String × Nat))
deriving DecidableEq

/-- `FileProcessor._generate_analysis_info(...)`. -/
def generateAnalysisInfo (selectedFiles : List ScoredFile)
    (languages : List (String × ℚ)) (frameworks : List String)
    (dependencies : List String) (primaryLanguage : String)
    (totalFilesProcessed filesFiltered : Nat) : AnalysisInfo :=
  let totalSize := sumSizes selectedFiles
  let totalLines := (selectedFiles.map fun f => splitlinesCount f.content).sum
  let complexityScores :=
    (selectedFiles.filterMap fun f => f.complexity).filter fun c => c ≠ 0
  let avgComplexity :=
    if complexityScores ≠ [] then complexityScores.sum / (complexityScores.length : ℚ)
    else 1
  .info primaryLanguage languages frameworks dependencies totalFilesProcessed
    filesFiltered selectedFiles.length totalSize totalLines
    (round2 avgComplexity) (analyzeComplexityDistribution complexityScores)
    (generateLanguageBreakdown selectedFiles) (analyzeFileTypes selectedFiles)

/-- `FileProcessor.process_files(files, context)`: filtering, language and
framework analysis, dependency extraction, prioritization, smart selection and
metadata generation. Zero valid files short-circuit to
`([], {"error": "No valid files to process"})`. -/
def processFiles (rsearch : String → String → Bool)
    (rcount : String → String → Nat)
    (parse : String → FileRecord → Option (List String))
    (raises : FileRecord → Bool) (files : List FileRecord) (context : Context) :
    List ScoredFile × AnalysisInfo :=
  let validFiles := applyBasicFiltering files
  if validFiles = [] then ([], .error "No valid files to process")
  else
    let languages := detectLanguages rsearch rcount validFiles
    let primaryLanguage := match languages with
      | [] => "unknown"
      | (l, _) :: _ => l
    let frameworks := detectFrameworks rsearch rcount validFiles (some primaryLanguage)
    let dependencies := extractDependencies parse validFiles primaryLanguage
    let prioritized := prioritizeFiles rsearch rcount raises validFiles (some primaryLanguage)
    let selectedFiles := smartSelection prioritized context
    (selectedFiles,
     generateAnalysisInfo selectedFiles languages frameworks dependencies
       primaryLanguage files.length (files.length - validFiles.length))

/-! ### Helper lemmas -/

theorem splitlinesCount_pos {s : String} (h : s ≠ "") : 0 < splitlinesCount s := by
  unfold splitlinesCount
  have hdata : s.data ≠ [] := by
    intro hd
    exact h (String.ext hd)
  by_cases hl : s.data.getLast? = some '\n'
  · have hmem : '\n' ∈ s.data := List.mem_of_mem_getLast? hl
    have : 0 < s.data.count '\n' := List.count_pos_iff.mpr hmem
    omega
  · rw [if_pos ⟨hdata, hl⟩]
    omega

theorem strStrip_empty : strStrip "" = "" := rfl

theorem contentNe_of_stripNe {s : String} (h : strStrip s ≠ "") : s ≠ "" := by
  intro hs
  subst hs
  exact h strStrip_empty

end PyGithubAnalyzer

namespace PyGithubAnalyzer

/-! ### Claim C5: the skip-set rule of `get_file_category` -/

/-- C5: for every filename whose lower-cased, stripped form matches an entry of
the fixed skip-set `Config.SKIP_FILES`, `get_file_category` returns `"skip"`;
since this test is the first one after the emptiness guard, it takes precedence
over the special-files, multi-part-extension and suffix rules. -/
theorem getFileCategory_skip (filename : String)
    (h : strStrip (strLower filename) ∈ SKIP_FILES) :
    getFileCategory filename = "skip" := by
  have hne : filename ≠ "" := by
    intro he
    subst he
    exact absurd h (by decide)
  unfold getFileCategory
  rw [if_neg hne]
  simp only [if_pos h]

/-- C5 witness: `.gitignore` is in the skip-set (and would also match the
multi-part-extension table) and is categorized `"skip"`. -/
theorem getFileCategory_skip_witness : getFileCategory ".gitignore" = "skip" :=
  getFileCategory_skip ".gitignore" (by decide)

/-! ### Claim C10: path conditions guaranteed by basic filtering -/

theorem validateFilePath_spec {p : String} (h : validateFilePath p = true) :
    p ≠ "" ∧ strContains ".." p = false ∧ strStartsWith p "/" = false ∧
    p.data.get? 1 ≠ some ':' ∧ strContains "\\" p = false ∧
    strStartsWith p "./" = false ∧ strContains "/./" p = false := by
  unfold validateFilePath at h
  split_ifs at h with h1 h2 h3 h4 h5 h6
  refine ⟨h1, by simpa using h2, by simpa using h3, ?_, by simpa using h5, ?_, ?_⟩
  · intro hc
    apply h4
    refine ⟨?_, hc⟩
    rcases List.get?_eq_some.mp hc with ⟨hlt, -⟩
    exact hlt
  · have h6' : ¬(strStartsWith p "./" = true) ∧ ¬(strContains "/./" p = true) := by
      simpa [not_or] using h6
    simpa using h6'.1
  · have h6' : ¬(strStartsWith p "./" = true) ∧ ¬(strContains "/./" p = true) := by
      simpa [not_or] using h6
    simpa using h6'.2

/-- C10: every record surviving `_apply_basic_filtering` has a path that is
non-empty, contains no `..` substring anywhere, no backslash, does not start
with `/` or `./`, contains no `/./`, and does not have `:` as its second
character (the conditions of `ValidationUtils.validate_file_path`). -/
theorem applyBasicFiltering_path_safety (files : List FileRecord)
    (f : FileRecord) (hmem : f ∈ applyBasicFiltering files) :
    f.path ≠ "" ∧ strContains ".." f.path = false ∧
    strStartsWith f.path "/" = false ∧ f.path.data.get? 1 ≠ some ':' ∧
    strContains "\\" f.path = false ∧ strStartsWith f.path "./" = false ∧
    strContains "/./" f.path = false := by
  have hp := (List.mem_filter.mp hmem).2
  have hv : validateFilePath f.path = true := (of_decide_eq_true hp).1
  exact validateFilePath_spec hv

/-- C10 witness: a well-formed record survives filtering and its path passes
every condition. -/
theorem applyBasicFiltering_path_safety_witness :
    (⟨"a.txt", 5, "x"⟩ : FileRecord).path ≠ "" ∧
    strContains ".." (⟨"a.txt", 5, "x"⟩ : FileRecord).path = false ∧
    strStartsWith (⟨"a.txt", 5, "x"⟩ : FileRecord).path "/" = false ∧
    (⟨"a.txt", 5, "x"⟩ : FileRecord).path.data.get? 1 ≠ some ':' ∧
    strContains "\\" (⟨"a.txt", 5, "x"⟩ : FileRecord).path = false ∧
    strStartsWith (⟨"a.txt", 5, "x"⟩ : FileRecord).path "./" = false ∧
    strContains "/./" (⟨"a.txt", 5, "x"⟩ : FileRecord).path = false :=
  applyBasicFiltering_path_safety [⟨"a.txt", 5, "x"⟩] ⟨"a.txt", 5, "x"⟩ (by decide)

/-! ### Claims C1 and C9: selection-engine budget invariants -/

theorem sumSizes_append_single (sel : List ScoredFile) (f : ScoredFile) :
    sumSizes (sel ++ [f]) = sumSizes sel + f.size := by
  simp [sumSizes]

theorem selectFromTier_spec (sz ct : Nat) (tier : List ScoredFile) :
    ∀ (sel : List ScoredFile) (total : Nat), total = sumSizes sel → total ≤ sz →
    sel.length ≤ ct →
    (selectFromTier sz ct tier sel total).2 =
      sumSizes (selectFromTier sz ct tier sel total).1 ∧
    (selectFromTier sz ct tier sel total).2 ≤ sz ∧
    (selectFromTier sz ct tier sel total).1.length ≤ ct := by
  induction tier with
  | nil =>
    intro sel total h1 h2 h3
    exact ⟨h1, h2, h3⟩
  | cons f rest ih =>
    intro sel total h1 h2 h3
    simp only [selectFromTier]
    by_cases hb : total + f.size > sz
    · rw [if_pos hb]
      by_cases hs : 10 * f.size < sz
      · rw [if_pos hs]
        exact ih sel total h1 h2 h3
      · rw [if_neg hs]
        exact ⟨h1, h2, h3⟩
    · rw [if_neg hb]
      by_cases hc : sel.length ≥ ct
      · rw [if_pos hc]
        exact ⟨h1, h2, h3⟩
      · rw [if_neg hc]
        apply ih
        · rw [sumSizes_append_single, h1]
        · omega
        · rw [List.length_append]
          simp only [List.length_singleton]
          omega

theorem smartSelection_inv (files : List ScoredFile) (context : Context) :
    sumSizes (smartSelection files context) ≤
      context.maxTotalSize.getD MAX_TOTAL_SIZE_BYTES ∧
    (smartSelection files context).length ≤ context.maxFiles.getD MAX_FILES_COUNT := by
  by_cases hf : files = []
  · simp [smartSelection, hf, sumSizes]
  · set sz := context.maxTotalSize.getD MAX_TOTAL_SIZE_BYTES with hsz
    set ct := context.maxFiles.getD MAX_FILES_COUNT with hct
    simp only [smartSelection, ← hsz, ← hct]
    rw [if_neg hf]
    set tiers := groupByPriorityTiers files with htiers
    set r1 := selectFromTier sz ct tiers.critical [] 0 with hr1
    obtain ⟨e1, b1, l1⟩ :=
      selectFromTier_spec sz ct tiers.critical [] 0 rfl (Nat.zero_le _) (Nat.zero_le _)
    rw [← hr1] at e1 b1 l1
    by_cases h1 : r1.1.length ≥ ct ∨ 10 * r1.2 ≥ 9 * sz
    · rw [if_pos h1]
      exact ⟨e1 ▸ b1, l1⟩
    · rw [if_neg h1]
      set r2 := selectFromTier sz ct tiers.high r1.1 r1.2 with hr2
      obtain ⟨e2, b2, l2⟩ := selectFromTier_spec sz ct tiers.high r1.1 r1.2 e1 b1 l1
      rw [← hr2] at e2 b2 l2
      by_cases h2 : r2.1.length ≥ ct ∨ 10 * r2.2 ≥ 9 * sz
      · rw [if_pos h2]
        exact ⟨e2 ▸ b2, l2⟩
      · rw [if_neg h2]
        set r3 := selectFromTier sz ct tiers.medium r2.1 r2.2 with hr3
        obtain ⟨e3, b3, l3⟩ := selectFromTier_spec sz ct tiers.medium r2.1 r2.2 e2 b2 l2
        rw [← hr3] at e3 b3 l3
        by_cases h3 : r3.1.length ≥ ct ∨ 10 * r3.2 ≥ 9 * sz
        · rw [if_pos h3]
          exact ⟨e3 ▸ b3, l3⟩
        · rw [if_neg h3]
          obtain ⟨e4, b4, l4⟩ := selectFromTier_spec sz ct tiers.low r3.1 r3.2 e3 b3 l3
          exact ⟨e4 ▸ b4, l4⟩

/-- C1: for every prioritized file list and every context, the smart selection
respects both budgets: the sum of the selected sizes never exceeds
`max_total_size` (the small-file salvage rule never admits an overflow, so the
"except" clause of the claim is vacuously satisfied) and the number of selected
files never exceeds `max_files`. -/
theorem smartSelection_budgets (files : List ScoredFile) (context : Context) :
    sumSizes (smartSelection files context) ≤
      context.maxTotalSize.getD MAX_TOTAL_SIZE_BYTES ∧
    (smartSelection files context).length ≤ context.maxFiles.getD MAX_FILES_COUNT :=
  smartSelection_inv files context

/-- C9: the selection engine never exceeds the byte budget at all — a file is
appended only when the accumulated size plus its size stays within
`max_total_size`, so the selected total size is bounded by the budget with no
overflow exception. -/
theorem smartSelection_size_never_exceeds (files : List ScoredFile)
    (context : Context) :
    sumSizes (smartSelection files context) ≤
      context.maxTotalSize.getD MAX_TOTAL_SIZE_BYTES :=
  (smartSelection_inv files context).1

/-! ### Claim C8: shape of the extracted dependency list -/

theorem charListLe_total : ∀ (a b : List Char),
    charListLe a b = true ∨ charListLe b a = true := by
  intro a
  induction a with
  | nil =>
    intro b
    left
    rfl
  | cons x xs ih =>
    intro b
    cases b with
    | nil =>
      right
      rfl
    | cons y ys =>
      simp only [charListLe]
      rcases Nat.lt_trichotomy x.toNat y.toNat with h1 | h1 | h1
      · left
        rw [if_pos h1]
      · rw [if_neg (by omega), if_neg (by omega), if_neg (by omega),
          if_neg (by omega)]
        exact ih ys
      · right
        rw [if_pos h1]

theorem charListLe_trans : ∀ (a b c : List Char), charListLe a b = true →
    charListLe b c = true → charListLe a c = true := by
  intro a
  induction a with
  | nil =>
    intro b c _ _
    rfl
  | cons x xs ih =>
    intro b c hab hbc
    cases b with
    | nil => exact absurd hab (by simp [charListLe])
    | cons y ys =>
      cases c with
      | nil => exact absurd hbc (by simp [charListLe])
      | cons z zs =>
        simp only [charListLe] at hab hbc ⊢
        rcases Nat.lt_trichotomy x.toNat y.toNat with h1 | h1 | h1
        · rcases Nat.lt_trichotomy y.toNat z.toNat with h2 | h2 | h2
          · rw [if_pos (by omega)]
          · rw [if_pos (by omega)]
          · rw [if_neg (by omega), if_pos h2] at hbc
            exact absurd hbc (by simp)
        · rcases Nat.lt_trichotomy y.toNat z.toNat with h2 | h2 | h2
          · rw [if_pos (by omega)]
          · rw [if_neg (by omega), if_neg (by omega)] at hab
            rw [if_neg (by omega), if_neg (by omega)] at hbc
            rw [if_neg (by omega), if_neg (by omega)]
            exact ih ys zs hab hbc
          · rw [if_neg (by omega), if_pos h2] at hbc
            exact absurd hbc (by simp)
        · rw [if_neg (by omega), if_pos h1] at hab
          exact absurd hab (by simp)

instance : IsTotal String strLeProp :=
  ⟨fun a b => charListLe_total a.data b.data⟩

instance : IsTrans String strLeProp :=
  ⟨fun a b c => charListLe_trans a.data b.data c.data⟩

theorem dedupInsert_nodup (ds : List String) :
    ∀ acc : List String, acc.Nodup →
    (ds.foldl (fun a d => if d ∈ a then a else a ++ [d]) acc).Nodup := by
  induction ds with
  | nil =>
    intro acc h
    exact h
  | cons d rest ih =>
    intro acc h
    simp only [List.foldl_cons]
    apply ih
    by_cases hd : d ∈ acc
    · rw [if_pos hd]
      exact h
    · rw [if_neg hd]
      simp [List.nodup_append, h, hd]

theorem accumDeps_nodup (parse : FileRecord → Option (List String)) :
    ∀ (files : List FileRecord) (acc : List String), acc.Nodup →
    (accumDeps parse files acc).Nodup := by
  intro files
  induction files with
  | nil =>
    intro acc h
    exact h
  | cons f rest ih =>
    intro acc h
    simp only [accumDeps]
    cases parse f with
    | none => exact ih acc h
    | some ds =>
      simp only []
      split_ifs with hlen
      · exact dedupInsert_nodup ds acc h
      · exact ih _ (dedupInsert_nodup ds acc h)

/-- C8: `extract_dependencies` returns a sorted, duplicate-free list of at most
30 strings, each 2–49 characters long and not starting with `.`; a primary
language outside the seven registered parsers yields the empty list. This
holds for every behaviour of the per-language manifest parsers. -/
theorem extractDependencies_spec
    (parse : String → FileRecord → Option (List String))
    (files : List FileRecord) (primaryLanguage : String) :
    (primaryLanguage ∉ supportedDepLangs →
      extractDependencies parse files primaryLanguage = []) ∧
    (extractDependencies parse files primaryLanguage).length ≤ 30 ∧
    List.Sorted strLeProp (extractDependencies parse files primaryLanguage) ∧
    (extractDependencies parse files primaryLanguage).Nodup ∧
    ∀ d ∈ extractDependencies parse files primaryLanguage,
      2 ≤ strLength d ∧ strLength d ≤ 49 ∧ strStartsWith d "." = false := by
  unfold extractDependencies
  by_cases hs : primaryLanguage ∉ supportedDepLangs
  · rw [if_pos hs]
    refine ⟨fun _ => rfl, by simp, by simp, by simp, by simp⟩
  · rw [if_neg hs]
    have hnodup : (accumDeps (parse primaryLanguage) files []).Nodup :=
      accumDeps_nodup (parse primaryLanguage) files [] List.nodup_nil
    have hfilter : ((accumDeps (parse primaryLanguage) files []).filter fun d =>
        strLength d > 1 ∧ strLength d < 50 ∧ ¬ strStartsWith d ".").Nodup :=
      hnodup.filter _
    have hsortnodup := (List.perm_insertionSort strLeProp _).nodup_iff.mpr hfilter
    refine ⟨fun h => absurd h hs, List.length_take_le _ _, ?_, ?_, ?_⟩
    · exact List.Pairwise.take (List.sorted_insertionSort strLeProp _)
    · exact (List.take_sublist _ _).nodup hsortnodup
    · intro d hd
      have hd1 : d ∈ List.insertionSort strLeProp
          ((accumDeps (parse primaryLanguage) files []).filter fun d =>
            strLength d > 1 ∧ strLength d < 50 ∧ ¬ strStartsWith d ".") :=
        List.mem_of_mem_take hd
      rw [List.mem_insertionSort] at hd1
      have hd2 := (List.mem_filter.mp hd1).2
      have hd3 := of_decide_eq_true hd2
      refine ⟨by omega, by omega, ?_⟩
      simpa using hd3.2.2

/-- C8 witness: an unsupported language yields `[]`; a concrete extracted
dependency satisfies the length and dot conditions. -/
theorem extractDependencies_spec_witness :
    extractDependencies (fun _ _ => some ["requests"]) [⟨"x", 1, ""⟩] "ruby" = [] ∧
    (2 ≤ strLength "flask" ∧ strLength "flask" ≤ 49 ∧
      strStartsWith "flask" "." = false) :=
  ⟨(extractDependencies_spec (fun _ _ => some ["requests"]) [⟨"x", 1, ""⟩]
      "ruby").1 (by decide),
   (extractDependencies_spec (fun _ _ => some ["requests", "flask"])
      [⟨"requirements.txt", 30, ""⟩] "python").2.2.2.2 "flask" (by decide)⟩

/-! ### Claim C3: empty result on zero valid files -/

/-- C3: whenever basic filtering leaves no valid file (in particular for the
empty input list), `process_files` returns the empty selection together with
the `{"error": "No valid files to process"}` marker; being a total function of
its inputs, it raises no exception. -/
theorem processFiles_no_valid_files (rsearch : String → String → Bool)
    (rcount : String → String → Nat)
    (parse : String → FileRecord → Option (List String))
    (raises : FileRecord → Bool) (files : List FileRecord) (context : Context)
    (h : applyBasicFiltering files = []) :
    processFiles rsearch rcount parse raises files context =
      ([], .error "No valid files to process") := by
  unfold processFiles
  simp only [h, if_true]

/-- C3 witness: the empty input list produces the explicit empty-state marker. -/
theorem processFiles_no_valid_files_witness :
    processFiles (fun _ _ => false) (fun _ _ => 0) (fun _ _ => none)
      (fun _ => false) [] ⟨none, none⟩ =
      ([], .error "No valid files to process") :=
  processFiles_no_valid_files _ _ _ _ [] ⟨none, none⟩ rfl

/-! ### Claim C2: priority scores of `prioritize_files` -/

theorem calcPriorityScore_priority_ge (rsearch : String → String → Bool)
    (rcount : String → String → Nat) (f : FileRecord) (target : String) :
    10 ≤ (calcPriorityScore rsearch rcount f target).priority := by
  unfold calcPriorityScore
  by_cases h : f.path = ""
  · rw [if_pos h]
    norm_num
  · rw [if_neg h]
    exact le_max_right _ _

theorem calcPriorityScore_breakdown (rsearch : String → String → Bool)
    (rcount : String → String → Nat) (f : FileRecord) (target : String)
    (h : f.path ≠ "") :
    ∃ b, (calcPriorityScore rsearch rcount f target).breakdown = some b ∧
      (calcPriorityScore rsearch rcount f target).priority =
        max (sumBreakdown b) 10 := by
  unfold calcPriorityScore
  rw [if_neg h]
  refine ⟨_, rfl, ?_⟩
  simp only [sumBreakdown]
  omega

/-- C2: every record emitted by `prioritize_files` carries a priority of at
least 10; the output has one record per input record; a record scored without
exception and with a non-empty path has its priority equal to the sum of the
eight `priority_breakdown` contributions clamped below at 10; and a record
whose scoring raises gets priority 100 while the batch continues. -/
theorem prioritizeFiles_spec (rsearch : String → String → Bool)
    (rcount : String → String → Nat) (raises : FileRecord → Bool)
    (files : List FileRecord) (targetLanguage : Option String) :
    (∀ r ∈ prioritizeFiles rsearch rcount raises files targetLanguage,
      10 ≤ r.priority) ∧
    (prioritizeFiles rsearch rcount raises files targetLanguage).length =
      files.length ∧
    (∀ f ∈ files, ∃ r ∈ prioritizeFiles rsearch rcount raises files targetLanguage,
      (raises f = true → r = exceptScored f ∧ r.priority = 100) ∧
      (raises f = false → f.path ≠ "" → ∃ b, r.breakdown = some b ∧
        r.priority = max (sumBreakdown b) 10)) := by
  by_cases hf : files = []
  · subst hf
    simp [prioritizeFiles]
  · unfold prioritizeFiles
    rw [if_neg hf]
    set target := resolveTarget rsearch rcount files targetLanguage with htarget
    refine ⟨?_, ?_, ?_⟩
    · intro r hr
      rw [List.mem_insertionSort] at hr
      obtain ⟨f, -, hgf⟩ := List.mem_map.mp hr
      by_cases hcase : raises f = true
      · rw [if_pos hcase] at hgf
        rw [← hgf]
        norm_num [exceptScored]
      · rw [if_neg hcase] at hgf
        rw [← hgf]
        exact calcPriorityScore_priority_ge rsearch rcount f target
    · rw [(List.perm_insertionSort prioDesc _).length_eq, List.length_map]
    · intro f hfmem
      refine ⟨if raises f = true then exceptScored f
              else calcPriorityScore rsearch rcount f target, ?_, ?_, ?_⟩
      · rw [List.mem_insertionSort]
        exact List.mem_map_of_mem _ hfmem
      · intro hraise
        rw [if_pos hraise]
        exact ⟨rfl, rfl⟩
      · intro hnraise hpath
        rw [if_neg (by simp [hnraise])]
        exact calcPriorityScore_breakdown rsearch rcount f target hpath

/-- C2 witness: a concrete `a.py` record is scored without exception and its
priority is exactly the clamped sum of its breakdown. -/
theorem prioritizeFiles_spec_witness :
    ∃ r ∈ prioritizeFiles (fun _ _ => false) (fun _ _ => 0) (fun _ => false)
        [⟨"a.py", 0, ""⟩] (some "python"),
      ∃ b, r.breakdown = some b ∧ r.priority = max (sumBreakdown b) 10 := by
  obtain ⟨-, -, h3⟩ := prioritizeFiles_spec (fun _ _ => false) (fun _ _ => 0)
    (fun _ => false) [⟨"a.py", 0, ""⟩] (some "python")
  obtain ⟨r, hr, -, hcalc⟩ := h3 ⟨"a.py", 0, ""⟩ (by simp)
  exact ⟨r, hr, hcalc rfl (by decide)⟩

/-! ### Claim C6: extension precedence in `detect_language_by_content` -/

/-- C6 counterexample: the claim asserts the extension-resolved language is
returned for every content string including the empty string, but the source
guards `if not content: return "unknown"` first: for `content = ""` and
`filename = "a.py"` (whose extension resolves to `"python"`), the function
returns `"unknown"`, not `"python"`. -/
theorem detectLanguageByContent_empty_content_cex :
    detectLanguageByExtension "a.py" = "python" ∧
    detectLanguageByContent (fun _ _ => false) (fun _ _ => 0) "" "a.py" =
      "unknown" :=
  ⟨by decide, rfl⟩

/-- C6 (amended): for every NON-EMPTY content string and every filename whose
extension resolves to a known language, `detect_language_by_content` returns
that extension-resolved language (content sniffing is consulted only when the
extension does not resolve); the empty content string yields `"unknown"`
before the extension is consulted. -/
theorem detectLanguageByContent_extension_first (rsearch : String → String → Bool)
    (rcount : String → String → Nat) (content filename : String)
    (hc : content ≠ "") (he : detectLanguageByExtension filename ≠ "unknown") :
    detectLanguageByContent rsearch rcount content filename =
      detectLanguageByExtension filename := by
  have hf : filename ≠ "" := by
    intro h
    subst h
    exact he rfl
  unfold detectLanguageByContent
  rw [if_neg hc, if_pos ⟨hf, he⟩]

/-- C6 witness: non-empty content with a `.py` filename resolves by extension. -/
theorem detectLanguageByContent_extension_first_witness :
    detectLanguageByContent (fun _ _ => false) (fun _ _ => 0) "x" "a.py" =
      detectLanguageByExtension "a.py" :=
  detectLanguageByContent_extension_first _ _ "x" "a.py" (by decide) (by decide)

/-! ### Claim C7: the complexity score -/

theorem complexityIndicators_unlisted {language : String}
    (h : language ∉ complexityLangs) :
    complexityIndicators language = complexityIndicators "python" := by
  simp only [complexityLangs, List.mem_cons, List.not_mem_nil, or_false,
    not_or] at h
  obtain ⟨h1, h2, h3, h4, h5⟩ := h
  unfold complexityIndicators
  rw [if_neg h1, if_neg (by tauto), if_neg h4, if_neg h5, if_pos rfl]

/-- C7: `calculate_complexity` always lies in `[1, 10]`; it is exactly `1` for
empty or whitespace-only content; languages without their own pattern list use
the Python pattern set; and for contentful input it equals
`min (1 + 9 * matches / lines) 10`. -/
theorem calculateComplexity_spec (rcount : String → String → Nat)
    (content language : String) :
    (1 ≤ calculateComplexity rcount content language ∧
      calculateComplexity rcount content language ≤ 10) ∧
    (strStrip content = "" → calculateComplexity rcount content language = 1) ∧
    (language ∉ complexityLangs →
      calculateComplexity rcount content language =
        calculateComplexity rcount content "python") ∧
    (strStrip content ≠ "" →
      calculateComplexity rcount content language =
        min (1 + ((complexityMatches rcount content language : ℚ) /
          (splitlinesCount content : ℚ)) * 9) 10) := by
  refine ⟨?_, ?_, ?_, ?_⟩
  · unfold calculateComplexity
    by_cases h1 : content = "" ∨ strStrip content = ""
    · rw [if_pos h1]
      norm_num
    · rw [if_neg h1]
      by_cases h2 : splitlinesCount content = 0
      · rw [if_pos h2]
        norm_num
      · rw [if_neg h2]
        constructor
        · refine le_min ?_ (by norm_num)
          have hnum : (0 : ℚ) ≤ (complexityMatches rcount content language : ℚ) /
              (splitlinesCount content : ℚ) := by positivity
          nlinarith
        · exact min_le_right _ _
  · intro ht
    unfold calculateComplexity
    rw [if_pos (Or.inr ht)]
  · intro hl
    unfold calculateComplexity complexityMatches
    rw [complexityIndicators_unlisted hl]
  · intro ht
    have hc : content ≠ "" := contentNe_of_stripNe ht
    have hl : splitlinesCount content ≠ 0 :=
      Nat.pos_iff_ne_zero.mp (splitlinesCount_pos hc)
    unfold calculateComplexity
    rw [if_neg (by tauto), if_neg hl]

/-- C7 witness: whitespace-only content scores exactly 1; an unlisted language
falls back to the Python pattern list; contentful input matches the formula. -/
theorem calculateComplexity_spec_witness :
    calculateComplexity (fun _ _ => 2) " " "python" = 1 ∧
    calculateComplexity (fun _ _ => 2) "x" "haskell" =
      calculateComplexity (fun _ _ => 2) "x" "python" ∧
    calculateComplexity (fun _ _ => 2) "x" "python" =
      min (1 + ((complexityMatches (fun _ _ => 2) "x" "python" : ℚ) /
        (splitlinesCount "x" : ℚ)) * 9) 10 :=
  ⟨(calculateComplexity_spec (fun _ _ => 2) " " "python").2.1 (by decide),
   (calculateComplexity_spec (fun _ _ => 2) "x" "haskell").2.2.1 (by decide),
   (calculateComplexity_spec (fun _ _ => 2) "x" "python").2.2.2 (by decide)⟩

/-! ### Claim C4: language percentages stay within [0, 100]

The proof tracks the `detect_languages` accumulation invariants: the stats-map
keys are distinct, the per-language totals sum to the grand totals, and every
entry is internally consistent (a language with no code files has no code
bytes, and every counted file contributed at least 10 bytes). -/

/-- Per-entry consistency of one `language_stats` entry. -/
def EntryOk (st : LangStats) : Prop :=
  (st.codeCount = 0 → st.codeSize = 0) ∧ st.codeCount ≤ st.codeSize ∧
  1 ≤ st.count ∧ 10 * st.count ≤ st.size

/-- The accumulation invariant of `detect_languages`' first pass. -/
def AccInv (acc : DetectAcc) : Prop :=
  (acc.stats.map Prod.fst).Nodup ∧
  (acc.stats.map fun p => p.2.size).sum = acc.totalSize ∧
  (acc.stats.map fun p => p.2.count).sum = acc.totalCount ∧
  (acc.stats.map fun p => p.2.codeSize).sum = acc.totalCodeSize ∧
  (acc.stats.map fun p => p.2.codeCount).sum = acc.totalCodeCount ∧
  ∀ p ∈ acc.stats, EntryOk p.2

theorem updateStats_sum (g : LangStats → Nat) (incr : Nat) (lang : String)
    (sz : Nat) (isCode : Bool)
    (hg : ∀ st, g (statAdd st sz isCode) = g st + incr)
    (hg0 : g ⟨0, 0, 0, 0⟩ = 0) :
    ∀ stats : List (String × LangStats),
    ((updateStats stats lang sz isCode).map fun p => g p.2).sum =
      ((stats.map fun p => g p.2).sum) + incr := by
  intro stats
  induction stats with
  | nil =>
    simp [updateStats, hg, hg0]
  | cons q rest ih =>
    obtain ⟨l, st⟩ := q
    simp only [updateStats]
    by_cases hl : l = lang
    · rw [if_pos hl]
      simp [hg]
      omega
    · rw [if_neg hl]
      simp only [List.map_cons, List.sum_cons, ih]
      omega

theorem updateStats_keys_mem (lang : String) (sz : Nat) (isCode : Bool) :
    ∀ (stats : List (String × LangStats)) (k : String),
    k ∈ (updateStats stats lang sz isCode).map Prod.fst →
    k ∈ stats.map Prod.fst ∨ k = lang := by
  intro stats
  induction stats with
  | nil =>
    intro k hk
    simp [updateStats] at hk
    exact Or.inr hk
  | cons q rest ih =>
    obtain ⟨l, st⟩ := q
    intro k hk
    simp only [updateStats] at hk
    by_cases hl : l = lang
    · rw [if_pos hl] at hk
      simp only [List.map_cons, List.mem_cons] at hk ⊢
      rcases hk with hk | hk
      · exact Or.inl (Or.inl hk)
      · exact Or.inl (Or.inr hk)
    · rw [if_neg hl] at hk
      simp only [List.map_cons, List.mem_cons] at hk ⊢
      rcases hk with hk | hk
      · exact Or.inl (Or.inl hk)
      · rcases ih k hk with h | h
        · exact Or.inl (Or.inr h)
        · exact Or.inr h

theorem updateStats_keys_nodup (lang : String) (sz : Nat) (isCode : Bool) :
    ∀ stats : List (String × LangStats), (stats.map Prod.fst).Nodup →
    ((updateStats stats lang sz isCode).map Prod.fst).Nodup := by
  intro stats
  induction stats with
  | nil =>
    intro _
    simp [updateStats]
  | cons q rest ih =>
    obtain ⟨l, st⟩ := q
    intro hnd
    simp only [List.map_cons, List.nodup_cons] at hnd
    simp only [updateStats]
    by_cases hl : l = lang
    · rw [if_pos hl]
      simp only [List.map_cons, List.nodup_cons]
      exact ⟨hnd.1, hnd.2⟩
    · rw [if_neg hl]
      simp only [List.map_cons, List.nodup_cons]
      refine ⟨?_, ih hnd.2⟩
      intro hmem
      rcases updateStats_keys_mem lang sz isCode rest l hmem with h | h
      · exact hnd.1 h
      · exact hl h

theorem updateStats_entries (lang : String) (sz : Nat) (isCode : Bool)
    (hsz : 10 ≤ sz) :
    ∀ stats : List (String × LangStats), (∀ p ∈ stats, EntryOk p.2) →
    ∀ p ∈ updateStats stats lang sz isCode, EntryOk p.2 := by
  have hadd : ∀ st, EntryOk st → EntryOk (statAdd st sz isCode) := by
    intro st hst
    obtain ⟨e1, e2, e3, e4⟩ := hst
    unfold EntryOk statAdd
    cases isCode <;> simp_all <;> omega
  have hzero : EntryOk (statAdd ⟨0, 0, 0, 0⟩ sz isCode) := by
    unfold EntryOk statAdd
    cases isCode <;> simp <;> omega
  intro stats
  induction stats with
  | nil =>
    intro _ p hp
    simp only [updateStats, List.mem_singleton] at hp
    rw [hp]
    exact hzero
  | cons q rest ih =>
    obtain ⟨l, st⟩ := q
    intro hall p hp
    simp only [updateStats] at hp
    by_cases hl : l = lang
    · rw [if_pos hl] at hp
      rcases List.mem_cons.mp hp with hp | hp
      · rw [hp]
        exact hadd st (hall (l, st) (List.mem_cons_self _ _))
      · exact hall p (List.mem_cons_of_mem _ hp)
    · rw [if_neg hl] at hp
      rcases List.mem_cons.mp hp with hp | hp
      · rw [hp]
        exact hall (l, st) (List.mem_cons_self _ _)
      · exact ih (fun r hr => hall r (List.mem_cons_of_mem _ hr)) p hp

theorem detectStep_inv (rsearch : String → String → Bool)
    (rcount : String → String → Nat) (acc : DetectAcc) (f : FileRecord)
    (h : AccInv acc) : AccInv (detectStep rsearch rcount acc f) := by
  unfold detectStep
  by_cases hsz : f.size < 10
  · rw [if_pos hsz]
    exact h
  · rw [if_neg hsz]
    obtain ⟨h1, h2, h3, h4, h5, h6⟩ := h
    refine ⟨updateStats_keys_nodup _ _ _ _ h1, ?_, ?_, ?_, ?_, ?_⟩
    · rw [updateStats_sum (fun st => st.size) f.size _ _ _ (fun st => rfl) rfl, h2]
    · rw [updateStats_sum (fun st => st.count) 1 _ _ _ (fun st => rfl) rfl, h3]
    · rw [updateStats_sum (fun st => st.codeSize) _ _ _ _ (fun st => rfl) rfl, h4]
    · rw [updateStats_sum (fun st => st.codeCount) _ _ _ _ (fun st => rfl) rfl, h5]
    · exact updateStats_entries _ _ _ (by omega) _ h6

theorem detectAcc_inv (rsearch : String → String → Bool)
    (rcount : String → String → Nat) (files : List FileRecord) :
    AccInv (files.foldl (detectStep rsearch rcount) ⟨[], 0, 0, 0, 0⟩) := by
  have hinit : AccInv ⟨[], 0, 0, 0, 0⟩ := by
    refine ⟨by simp, by simp, by simp, by simp, by simp, by simp⟩
  generalize hinit' : (⟨[], 0, 0, 0, 0⟩ : DetectAcc) = init at hinit ⊢
  clear hinit'
  induction files generalizing init with
  | nil => exact hinit
  | cons f rest ih =>
    exact ih _ (detectStep_inv rsearch rcount init f hinit)

theorem lookupVal_eq_of_mem_nodup {α : Type} :
    ∀ (tbl : List (String × α)) (k : String) (v : α),
    (tbl.map Prod.fst).Nodup → (k, v) ∈ tbl → lookupVal tbl k = some v := by
  intro tbl
  induction tbl with
  | nil =>
    intro k v _ hmem
    simp at hmem
  | cons q rest ih =>
    obtain ⟨l, w⟩ := q
    intro k v hnd hmem
    simp only [List.map_cons, List.nodup_cons] at hnd
    rcases List.mem_cons.mp hmem with hmem | hmem
    · injection hmem with a b
      unfold lookupVal
      rw [if_pos a.symm, b]
    · unfold lookupVal
      rw [if_neg ?hne]
      case hne =>
        intro he
        subst he
        exact hnd.1 (List.mem_map.mpr ⟨(l, v), hmem, rfl⟩)
      exact ih k v hnd.2 hmem

theorem mem_pair_unique {α : Type} :
    ∀ (l : List (String × α)), (l.map Prod.fst).Nodup →
    ∀ {k : String} {a b : α}, (k, a) ∈ l → (k, b) ∈ l → a = b := by
  intro l hnd k a b ha hb
  have h1 := lookupVal_eq_of_mem_nodup l k a hnd ha
  have h2 := lookupVal_eq_of_mem_nodup l k b hnd hb
  rw [h1] at h2
  injection h2

theorem mem_le_sum_proj (stats : List (String × LangStats))
    (g : LangStats → Nat) (p : String × LangStats) (hmem : p ∈ stats) :
    g p.2 ≤ (stats.map fun q => g q.2).sum :=
  List.single_le_sum (fun _ _ => Nat.zero_le _) _
    (List.mem_map.mpr ⟨p, hmem, rfl⟩)

theorem pair_le_sum_proj (g : LangStats → Nat) :
    ∀ (stats : List (String × LangStats)) (p q : String × LangStats),
    p ∈ stats → q ∈ stats → p.1 ≠ q.1 →
    g p.2 + g q.2 ≤ (stats.map fun r => g r.2).sum := by
  intro stats
  induction stats with
  | nil =>
    intro p q hp _ _
    simp at hp
  | cons s rest ih =>
    intro p q hp hq hne
    simp only [List.map_cons, List.sum_cons]
    rcases List.mem_cons.mp hp with hp' | hp'
    · rcases List.mem_cons.mp hq with hq' | hq'
      · exact absurd (hq' ▸ hp' ▸ rfl) hne
      · have := mem_le_sum_proj rest g q hq'
        rw [hp']
        omega
    · rcases List.mem_cons.mp hq with hq' | hq'
      · have := mem_le_sum_proj rest g p hp'
        rw [hq']
        omega
      · have := ih p q hp' hq' hne
        omega

/-! Rational bound lemmas for percentages and rounding. -/

theorem pct_nonneg {a c : ℚ} (ha : 0 ≤ a) (hc : 0 ≤ c) : 0 ≤ a / c * 100 := by
  positivity

theorem pct_le_100 {a c : ℚ} (hc : 0 < c) (h : a ≤ c) : a / c * 100 ≤ 100 := by
  rw [div_mul_eq_mul_div, div_le_iff hc]
  nlinarith

theorem pct_pair_bound {a b c : ℚ} (hc : 0 < c) (h : a + b ≤ c) :
    a / c * 100 ≤ 100 - b / c * 100 := by
  rw [div_mul_eq_mul_div, div_mul_eq_mul_div, le_sub_iff_add_le,
    div_add_div_same, div_le_iff hc]
  nlinarith

theorem pctOf_nonneg (a b : Nat) : 0 ≤ pctOf a b := by
  unfold pctOf
  split_ifs with h
  · positivity
  · exact le_refl 0

theorem pctOf_le_100 {a b : Nat} (h : a ≤ b) : pctOf a b ≤ 100 := by
  unfold pctOf
  split_ifs with hb
  · exact pct_le_100 (by exact_mod_cast hb) (by exact_mod_cast h)
  · norm_num

theorem round1_le (q : ℚ) : round1 q ≤ q + 1 / 20 := by
  unfold round1
  have h := Int.floor_le (q * 10 + 1 / 2)
  rw [div_le_iff (by norm_num : (0 : ℚ) < 10)]
  linarith

theorem round1_ge (q : ℚ) : q - 1 / 20 ≤ round1 q := by
  unfold round1
  have h := Int.lt_floor_add_one (q * 10 + 1 / 2)
  rw [le_div_iff (by norm_num : (0 : ℚ) < 10)]
  linarith

theorem round1_nonneg {q : ℚ} (h : 0 ≤ q) : 0 ≤ round1 q := by
  unfold round1
  have : (0 : ℤ) ≤ ⌊q * 10 + 1 / 2⌋ := by
    rw [Int.le_floor]
    push_cast
    linarith
  positivity

theorem round1_le_100 {q : ℚ} (h : q ≤ 100) : round1 q ≤ 100 := by
  unfold round1
  have hfl : ⌊q * 10 + 1 / 2⌋ ≤ 1000 := by
    rw [Int.floor_le_iff]
    push_cast
    linarith
  rw [div_le_iff (by norm_num : (0 : ℚ) < 10)]
  calc (⌊q * 10 + 1 / 2⌋ : ℚ) ≤ 1000 := by exact_mod_cast hfl
  _ = 100 * 10 := by norm_num

theorem weightedPct_nonneg (acc : DetectAcc) (st : LangStats) :
    0 ≤ weightedPct acc st := by
  unfold weightedPct
  have h1 := pctOf_nonneg st.size acc.totalSize
  have h2 := pctOf_nonneg st.count acc.totalCount
  have h3 := pctOf_nonneg st.codeCount acc.totalCodeCount
  split_ifs with h
  · have h4 : (0 : ℚ) ≤ (st.codeSize : ℚ) / (acc.totalCodeSize : ℚ) * 100 := by
      positivity
    linarith
  · linarith

theorem weightedPct_le_100 (acc : DetectAcc) (st : LangStats)
    (hs : st.size ≤ acc.totalSize) (hc : st.count ≤ acc.totalCount)
    (hcs : st.codeSize ≤ acc.totalCodeSize)
    (hcc : st.codeCount ≤ acc.totalCodeCount) :
    weightedPct acc st ≤ 100 := by
  unfold weightedPct
  have h1 := pctOf_le_100 hs
  have h2 := pctOf_le_100 hc
  have h1' := pctOf_nonneg st.size acc.totalSize
  have h2' := pctOf_nonneg st.count acc.totalCount
  have h3 := pctOf_le_100 hcc
  have h3' := pctOf_nonneg st.codeCount acc.totalCodeCount
  split_ifs with h
  · have h4 : (st.codeSize : ℚ) / (acc.totalCodeSize : ℚ) * 100 ≤ 100 :=
      pct_le_100 (by exact_mod_cast h.1) (by exact_mod_cast hcs)
    have h4' : (0 : ℚ) ≤ (st.codeSize : ℚ) / (acc.totalCodeSize : ℚ) * 100 := by
      positivity
    linarith
  · linarith

theorem scoreOf_nonneg (acc : DetectAcc) (lang : String) (st : LangStats) :
    0 ≤ scoreOf acc lang st := by
  unfold scoreOf
  have h := weightedPct_nonneg acc st
  split_ifs
  · linarith
  · exact h

theorem scoreOf_le_weightedPct (acc : DetectAcc) (lang : String)
    (st : LangStats) : scoreOf acc lang st ≤ weightedPct acc st := by
  unfold scoreOf
  have h := weightedPct_nonneg acc st
  split_ifs
  · linarith
  · exact le_refl _

theorem mem_percListOf {acc : DetectAcc} {p : String × ℚ}
    (h : p ∈ percListOf acc) :
    ∃ st, (p.1, st) ∈ acc.stats ∧ 3 ≤ weightedPct acc st ∧
      p.2 = round1 (scoreOf acc p.1 st) := by
  unfold percListOf at h
  rw [List.mem_filterMap] at h
  obtain ⟨q, hq, heq⟩ := h
  split_ifs at heq with hw
  injection heq with he
  subst he
  exact ⟨q.2, hq, hw, rfl⟩

theorem percList_val_bounds {acc : DetectAcc} (hinv : AccInv acc)
    {p : String × ℚ} (h : p ∈ percListOf acc) : 0 ≤ p.2 ∧ p.2 ≤ 100 := by
  obtain ⟨st, hmem, -, hval⟩ := mem_percListOf h
  obtain ⟨-, hsum1, hsum2, hsum3, hsum4, -⟩ := hinv
  have hs : st.size ≤ acc.totalSize :=
    hsum1 ▸ mem_le_sum_proj acc.stats (fun st => st.size) (p.1, st) hmem
  have hc : st.count ≤ acc.totalCount :=
    hsum2 ▸ mem_le_sum_proj acc.stats (fun st => st.count) (p.1, st) hmem
  have hcs : st.codeSize ≤ acc.totalCodeSize :=
    hsum3 ▸ mem_le_sum_proj acc.stats (fun st => st.codeSize) (p.1, st) hmem
  have hcc : st.codeCount ≤ acc.totalCodeCount :=
    hsum4 ▸ mem_le_sum_proj acc.stats (fun st => st.codeCount) (p.1, st) hmem
  have hw100 := weightedPct_le_100 acc st hs hc hcs hcc
  have hsle := scoreOf_le_weightedPct acc p.1 st
  have hs0 := scoreOf_nonneg acc p.1 st
  rw [hval]
  exact ⟨round1_nonneg hs0, round1_le_100 (le_trans hsle hw100)⟩

theorem percKeys_sublist (acc : DetectAcc) :
    ∀ stats : List (String × LangStats),
    List.Sublist ((stats.filterMap fun p =>
      if weightedPct acc p.2 ≥ 3 then some (p.1, round1 (scoreOf acc p.1 p.2))
      else none).map Prod.fst) (stats.map Prod.fst) := by
  intro stats
  induction stats with
  | nil => simp
  | cons q rest ih =>
    by_cases hc : weightedPct acc q.2 ≥ 3
    · rw [List.filterMap_cons_some (by rw [if_pos hc])]
      simp only [List.map_cons]
      exact List.Sublist.cons₂ _ ih
    · rw [List.filterMap_cons_none (by rw [if_neg hc])]
      simp only [List.map_cons]
      exact List.Sublist.cons _ ih

theorem percListOf_keys_sublist (acc : DetectAcc) :
    List.Sublist ((percListOf acc).map Prod.fst) (acc.stats.map Prod.fst) := by
  unfold percListOf
  exact percKeys_sublist acc acc.stats

theorem codeLangs_sublist (acc : DetectAcc) (s1 : List (String × ℚ)) :
    ∀ stats : List (String × LangStats),
    List.Sublist (stats.filterMap fun p =>
      if p.2.codeCount > 0 ∧ (lookupVal s1 p.1).isSome then some p.1 else none)
      (stats.map Prod.fst) := by
  intro stats
  induction stats with
  | nil => simp
  | cons q rest ih =>
    by_cases hc : q.2.codeCount > 0 ∧ (lookupVal s1 q.1).isSome
    · rw [List.filterMap_cons_some (by rw [if_pos hc])]
      simp only [List.map_cons]
      exact List.Sublist.cons₂ _ ih
    · rw [List.filterMap_cons_none (by rw [if_neg hc])]
      simp only [List.map_cons]
      exact List.Sublist.cons _ ih

theorem mem_codeLangs {acc : DetectAcc} {s1 : List (String × ℚ)} {k : String}
    (h : k ∈ acc.stats.filterMap fun p =>
      if p.2.codeCount > 0 ∧ (lookupVal s1 p.1).isSome then some p.1 else none) :
    ∃ P ∈ acc.stats, P.1 = k ∧ 0 < P.2.codeCount := by
  rw [List.mem_filterMap] at h
  obtain ⟨P, hP, heq⟩ := h
  split_ifs at heq with hc
  injection heq with he
  exact ⟨P, hP, he, hc.1⟩

theorem mem_setVal {m : List (String × ℚ)} {k : String} {v : ℚ}
    {p : String × ℚ} (h : p ∈ setVal m k v) :
    ∃ q ∈ m, p.1 = q.1 ∧ ((q.1 = k ∧ p.2 = v) ∨ (q.1 ≠ k ∧ p.2 = q.2)) := by
  unfold setVal at h
  rw [List.mem_map] at h
  obtain ⟨q, hq, heq⟩ := h
  by_cases hk : q.1 = k
  · rw [if_pos hk] at heq
    refine ⟨q, hq, ?_, Or.inl ⟨hk, ?_⟩⟩
    · rw [← heq]
    · rw [← heq]
  · rw [if_neg hk] at heq
    refine ⟨q, hq, ?_, Or.inr ⟨hk, ?_⟩⟩
    · rw [← heq]
    · rw [← heq]

theorem mem_foldl_addVal {b : ℚ} :
    ∀ (ls : List String) (m : List (String × ℚ)) (p : String × ℚ),
    p ∈ ls.foldl (fun acc l => addVal acc l b) m →
    ∃ q ∈ m, p.1 = q.1 ∧ p.2 = q.2 + (ls.count q.1 : ℚ) * b := by
  intro ls
  induction ls with
  | nil =>
    intro m p hp
    exact ⟨p, hp, rfl, by simp⟩
  | cons c rest ih =>
    intro m p hp
    simp only [List.foldl_cons] at hp
    obtain ⟨q', hq', h1, h2⟩ := ih (addVal m c b) p hp
    unfold addVal at hq'
    rw [List.mem_map] at hq'
    obtain ⟨q, hq, heq⟩ := hq'
    by_cases hk : q.1 = c
    · rw [if_pos hk] at heq
      rw [← heq] at h1 h2
      refine ⟨q, hq, h1, ?_⟩
      have hcount : (c :: rest).count q.1 = rest.count q.1 + 1 := by
        simp [List.count_cons, hk]
      rw [h2, hcount]
      push_cast
      ring
    · rw [if_neg hk] at heq
      rw [← heq] at h1 h2
      refine ⟨q, hq, h1, ?_⟩
      have hcount : (c :: rest).count q.1 = rest.count q.1 := by
        simp [List.count_cons, hk]
      rw [h2, hcount]

/-- The key numeric bound behind the anti-domination correction: when a
language `t` has no code files and a distinct language `l` has some, the
weighted percentage of `l` is at most `100` minus half the weighted percentage
of `t`. -/
theorem code_entry_bound (acc : DetectAcc) (hinv : AccInv acc)
    {t l : String} {stT stL : LangStats}
    (hT : (t, stT) ∈ acc.stats) (hL : (l, stL) ∈ acc.stats)
    (hne : t ≠ l) (hTcc : stT.codeCount = 0) (hLcc : 0 < stL.codeCount) :
    weightedPct acc stL ≤ 100 - weightedPct acc stT / 2 := by
  obtain ⟨hnd, hsum1, hsum2, hsum3, hsum4, hent⟩ := hinv
  obtain ⟨eT1, eT2, eT3, eT4⟩ := hent (t, stT) hT
  obtain ⟨eL1, eL2, eL3, eL4⟩ := hent (l, stL) hL
  have hTcs : stT.codeSize = 0 := eT1 hTcc
  have hSZ : 0 < acc.totalSize := by
    have := hsum1 ▸ mem_le_sum_proj acc.stats (fun st => st.size) (t, stT) hT
    simp only at this eT3 eT4
    omega
  have hCT : 0 < acc.totalCount := by
    have := hsum2 ▸ mem_le_sum_proj acc.stats (fun st => st.count) (t, stT) hT
    simp only at this eT3
    omega
  have hLcs : 0 < stL.codeSize := by
    simp only at eL2
    omega
  have hCSle : stL.codeSize ≤ acc.totalCodeSize :=
    hsum3 ▸ mem_le_sum_proj acc.stats (fun st => st.codeSize) (l, stL) hL
  have hCS : 0 < acc.totalCodeSize := by omega
  have hCCle : stL.codeCount ≤ acc.totalCodeCount :=
    hsum4 ▸ mem_le_sum_proj acc.stats (fun st => st.codeCount) (l, stL) hL
  have hpairS : stT.size + stL.size ≤ acc.totalSize :=
    hsum1 ▸ pair_le_sum_proj (fun st => st.size) acc.stats (t, stT) (l, stL)
      hT hL hne
  have hpairC : stT.count + stL.count ≤ acc.totalCount :=
    hsum2 ▸ pair_le_sum_proj (fun st => st.count) acc.stats (t, stT) (l, stL)
      hT hL hne
  have hQSZ : (0 : ℚ) < (acc.totalSize : ℚ) := by exact_mod_cast hSZ
  have hQCT : (0 : ℚ) < (acc.totalCount : ℚ) := by exact_mod_cast hCT
  have hTw : weightedPct acc stT =
      pctOf stT.size acc.totalSize * (6/10) +
      pctOf stT.count acc.totalCount * (4/10) := by
    unfold weightedPct
    rw [if_neg]
    intro hcontra
    omega
  have hLw : weightedPct acc stL =
      pctOf stL.size acc.totalSize * (4/10) +
      pctOf stL.count acc.totalCount * (2/10) +
      (stL.codeSize : ℚ) / (acc.totalCodeSize : ℚ) * 100 * (3/10) +
      pctOf stL.codeCount acc.totalCodeCount * (1/10) := by
    unfold weightedPct
    rw [if_pos ⟨hCS, hLcs⟩]
  have hb1 : pctOf stL.size acc.totalSize ≤ 100 - pctOf stT.size acc.totalSize := by
    unfold pctOf
    rw [if_pos hSZ, if_pos hSZ]
    refine pct_pair_bound hQSZ ?_
    have : (stL.size : ℚ) + (stT.size : ℚ) ≤ (acc.totalSize : ℚ) := by
      exact_mod_cast (by omega : stL.size + stT.size ≤ acc.totalSize)
    linarith
  have hb2 : pctOf stL.count acc.totalCount ≤
      100 - pctOf stT.count acc.totalCount := by
    unfold pctOf
    rw [if_pos hCT, if_pos hCT]
    refine pct_pair_bound hQCT ?_
    have : (stL.count : ℚ) + (stT.count : ℚ) ≤ (acc.totalCount : ℚ) := by
      exact_mod_cast (by omega : stL.count + stT.count ≤ acc.totalCount)
    linarith
  have hb3 : (stL.codeSize : ℚ) / (acc.totalCodeSize : ℚ) * 100 ≤ 100 :=
    pct_le_100 (by exact_mod_cast hCS) (by exact_mod_cast hCSle)
  have hb4 : pctOf stL.codeCount acc.totalCodeCount ≤ 100 :=
    pctOf_le_100 hCCle
  have hnn1 := pctOf_nonneg stT.size acc.totalSize
  have hnn2 := pctOf_nonneg stT.count acc.totalCount
  rw [hTw, hLw]
  linarith

theorem redistributed_bounds (acc : DetectAcc) (hinv : AccInv acc) :
    ∀ q ∈ redistributed acc (sortedLangsOf acc), 0 ≤ q.2 ∧ q.2 ≤ 100 := by
  intro q hq
  have hndStats : (acc.stats.map Prod.fst).Nodup := hinv.1
  have hperm : List.Perm (sortedLangsOf acc) (percListOf acc) := by
    unfold sortedLangsOf
    exact List.perm_insertionSort qDesc (percListOf acc)
  cases hsl : sortedLangsOf acc with
  | nil =>
    rw [hsl] at hq
    simp [redistributed] at hq
  | cons top rest =>
    obtain ⟨topLang, topPct⟩ := top
    rw [hsl] at hq hperm
    simp only [redistributed] at hq
    by_cases htrig : topPct > 70 ∧
        ((lookupVal acc.stats topLang).getD ⟨0, 0, 0, 0⟩).codeCount = 0
    case neg =>
      rw [if_neg htrig] at hq
      exact percList_val_bounds hinv (hperm.mem_iff.mp hq)
    case pos =>
      rw [if_pos htrig] at hq
      have htopmem : (topLang, topPct) ∈ percListOf acc :=
        hperm.mem_iff.mp (List.mem_cons_self _ _)
      obtain ⟨stT, hTmem, -, hTval⟩ := mem_percListOf htopmem
      dsimp only at hTmem hTval
      have hlook : lookupVal acc.stats topLang = some stT :=
        lookupVal_eq_of_mem_nodup _ _ _ hndStats hTmem
      have hTcc : stT.codeCount = 0 := by
        have h := htrig.2
        rw [hlook] at h
        exact h
      have htop70 : (70 : ℚ) < topPct := htrig.1
      have htopPct := percList_val_bounds hinv htopmem
      dsimp only at htopPct
      set redis := min (topPct - 50) 20 with hredis
      have hredis_nonneg : 0 ≤ redis := by
        rw [hredis]
        rw [le_min_iff]
        constructor <;> linarith
      have hredis_le : redis ≤ topPct - 50 := min_le_left _ _
      have hredis_le20 : redis ≤ 20 := min_le_right _ _
      set s1 := setVal ((topLang, topPct) :: rest) topLang (topPct - redis)
        with hs1def
      have hs1b : ∀ r ∈ s1, 0 ≤ r.2 ∧ r.2 ≤ 100 := by
        intro r hr
        obtain ⟨q0, hq0, -, hcase⟩ := mem_setVal hr
        have hq0perc : q0 ∈ percListOf acc := hperm.mem_iff.mp hq0
        have hq0b := percList_val_bounds hinv hq0perc
        rcases hcase with ⟨-, hv⟩ | ⟨-, hv⟩
        · rw [hv]
          constructor <;> linarith [htopPct.1, htopPct.2]
        · rw [hv]
          exact hq0b
      set codeLangs := acc.stats.filterMap (fun p =>
        if p.2.codeCount > 0 ∧ (lookupVal s1 p.1).isSome then some p.1 else none)
        with hcls
      by_cases hcl : codeLangs ≠ []
      case neg =>
        rw [if_neg hcl] at hq
        exact hs1b q hq
      case pos =>
        rw [if_pos hcl] at hq
        have hn : 0 < codeLangs.length :=
          List.length_pos.mpr hcl
        set boost := redis / (codeLangs.length : ℚ) with hboost
        have hQn : (0 : ℚ) < (codeLangs.length : ℚ) := by exact_mod_cast hn
        have hboost_nonneg : 0 ≤ boost := by
          rw [hboost]
          positivity
        have hboost_le : boost ≤ 20 := by
          rw [hboost, div_le_iff hQn]
          have h1 : (1 : ℚ) ≤ (codeLangs.length : ℚ) := by exact_mod_cast hn
          nlinarith
        obtain ⟨q', hq', hkey, hval⟩ := mem_foldl_addVal codeLangs s1 q hq
        have hnodupCL : codeLangs.Nodup := by
          rw [hcls]
          exact (codeLangs_sublist acc s1 acc.stats).nodup hndStats
        have hcount := List.nodup_iff_count_le_one.mp hnodupCL q'.1
        rcases Nat.le_one_iff_eq_zero_or_eq_one.mp hcount with hc0 | hc1
        · rw [hc0] at hval
          simp only [Nat.cast_zero, zero_mul, add_zero] at hval
          rw [hval]
          exact hs1b q' hq'
        · have hmemCL : q'.1 ∈ codeLangs := by
            rw [← List.count_pos_iff]
            omega
          rw [hcls] at hmemCL
          obtain ⟨⟨Pk, Pv⟩, hPmem, hPkey, hPcc⟩ := mem_codeLangs hmemCL
          simp only at hPkey hPcc
          obtain ⟨q0, hq0, hkeq0, hcase0⟩ := mem_setVal hq'
          have hq0perc : q0 ∈ percListOf acc := hperm.mem_iff.mp hq0
          obtain ⟨stL, hLmem, -, hLval⟩ := mem_percListOf hq0perc
          have hPk : (q0.1, Pv) ∈ acc.stats := by
            rw [← hkeq0, ← hPkey]
            exact hPmem
          have hstLP : stL = Pv := mem_pair_unique acc.stats hndStats hLmem hPk
          have hLcc : 0 < stL.codeCount := by
            rw [hstLP]
            exact hPcc
          rcases hcase0 with ⟨hk0, -⟩ | ⟨hk0, hv0⟩
          · exfalso
            have hTL : (topLang, stL) ∈ acc.stats := hk0 ▸ hLmem
            have : stL = stT := mem_pair_unique acc.stats hndStats hTL hTmem
            rw [this] at hLcc
            omega
          · have hne : topLang ≠ q0.1 := fun he => hk0 (he ▸ rfl)
            have hbound := code_entry_bound acc hinv hTmem hLmem hne hTcc hLcc
            have hwTlow : (1399 : ℚ) / 20 < weightedPct acc stT := by
              have h1 : topPct ≤ scoreOf acc topLang stT + 1 / 20 := by
                rw [hTval]
                exact round1_le _
              have h2 := scoreOf_le_weightedPct acc topLang stT
              linarith
            have hup : q0.2 ≤ weightedPct acc stL + 1 / 20 := by
              rw [hLval]
              have h1 := round1_le (scoreOf acc q0.1 stL)
              have h2 := scoreOf_le_weightedPct acc q0.1 stL
              linarith
            have hlow : 0 ≤ q0.2 := (percList_val_bounds hinv hq0perc).1
            rw [hc1] at hval
            simp only [Nat.cast_one, one_mul] at hval
            rw [hval, hv0]
            constructor
            · linarith
            · linarith

/-- C4: every percentage value in the map returned by `detect_languages` lies
in `[0, 100]`, including after the anti-domination correction that, when the
top language exceeds 70 percent with zero code files, subtracts
`min(top - 50, 20)` points from the top and spreads them evenly over the
code-bearing languages still present. Holds for every regex-engine behaviour
and every input file list. -/
theorem detectLanguages_bounds (rsearch : String → String → Bool)
    (rcount : String → String → Nat) (files : List FileRecord) :
    ∀ p ∈ detectLanguages rsearch rcount files, 0 ≤ p.2 ∧ p.2 ≤ 100 := by
  intro p hp
  simp only [detectLanguages] at hp
  rw [List.mem_insertionSort] at hp
  obtain ⟨q, hq, hpq⟩ := List.mem_map.mp hp
  have hinv := detectAcc_inv rsearch rcount files
  have hb := redistributed_bounds _ hinv q hq
  rw [← hpq]
  exact ⟨round1_nonneg hb.1, round1_le_100 hb.2⟩

/-- C4 witness: a single 100-byte `a.py` file yields the entry
`("python", 100)`, whose value the theorem bounds to `[0, 100]`. -/
theorem detectLanguages_bounds_witness :
    0 ≤ (("python", (100 : ℚ)) : String × ℚ).2 ∧
    (("python", (100 : ℚ)) : String × ℚ).2 ≤ 100 :=
  detectLanguages_bounds (fun _ _ => false) (fun _ _ => 0)
    [⟨"a.py", 100, "x"⟩] ("python", (100 : ℚ)) (by decide)

end PyGithubAnalyzer
